import Mathlib

/-!
# iodns: the per-query forwarding engine

A shallow embedding of `src/iodns.c` (with the cipher state type of
`src/crypto.h`).  Bytes are natural numbers below 256, C `int` and `ssize_t`
values are integers, and a buffer is the list of the bytes that start at its
address.  Everything the program obtains from outside (random bytes, SHA-512,
the cipher, the DNS parser and the results of system calls) is an explicit
input.

Memory is flat: a store into `tx_buf` that runs past `BUF_SIZE` lengthens the
list, as the bytes land in the memory behind the array, and raises the flag
`overrun` of the record.  What the callbacks do to the sockets, the record and
the servers is logged in the state, so that the properties of a run can be read
off its last state.
-/

namespace Iodns

/-! ## Constants -/

/-- The macro `BUF_SIZE`. -/
def BUF_SIZE : Nat := 8192

/-- The macro `MAX_TRY`. -/
def MAX_TRY : Int := 4

/-- The macro `MAGIC`. -/
def MAGIC : Nat := 0x526f6e61

/-- The value of `EINPROGRESS` in the Linux `errno.h`. -/
def EINPROGRESS : Int := 115

/-- The value of `EAGAIN` in the Linux `errno.h`. -/
def EAGAIN : Int := 11

/-- The value of `EWOULDBLOCK` in the Linux `errno.h`. -/
def EWOULDBLOCK : Int := 11

/-! ## Data model -/

/-- The struct `rc4_evp_t` of `crypto.h`. -/
structure rc4_evp_t where
  i : Int
  j : Int
  s : List Nat
deriving DecidableEq

/-- The struct `crypto_evp_t` of `crypto.h`: the cipher state of a connection. -/
structure crypto_evp_t where
  enc : rc4_evp_t
  dec : rc4_evp_t
deriving DecidableEq

/-- The two values of `conn_t.protocol`. -/
inductive protocol_t
  | SOCK_STREAM
  | SOCK_DGRAM
deriving DecidableEq

/-- The two callbacks that `w_remote_write` is initialised with. -/
inductive callback_t
  | connect_cb
  | remote_write_cb
deriving DecidableEq

/-- The struct `conn_t`.  An `ev_io` member is represented by whether the watcher
is started (`w_remote_write` also by its callback).  The last three fields are
bookkeeping that the C record does not hold: whether the close-wait timer that
points to the record is started, how often `mem_delete` was called on the
record, and whether a store went past the end of `tx_buf`. -/
structure conn_t where
  w_local_read : Bool
  w_local_write : Bool
  w_remote_read : Bool
  w_remote_write : Option callback_t
  rx_bytes : Int
  tx_bytes : Int
  rx_offset : Int
  tx_offset : Int
  sock_local : Int
  sock_remote : Int
  protocol : protocol_t
  server_id : Nat
  server_tried : Int
  enc_evp : crypto_evp_t
  rx_buf : List Nat
  tx_buf : List Nat
  w_timer : Bool
  freed : Nat
  overrun : Bool
deriving DecidableEq

/-- State outside the connection record: the column `servers[i].health`, and a
log of what the process did: random bytes drawn, `socket()` calls, the server
ids `connect()` was called for, the descriptors given to `close()`, the bytes
accepted by the remote socket and the bytes accepted by the client socket. -/
structure world_t where
  health : List Int
  rand_pos : Nat
  n_socket : Nat
  connects : List Nat
  closed : List Int
  sent_remote : List Nat
  sent_client : List Nat
deriving DecidableEq

/-- What the program reads but never writes during a query: the configuration
(`conf.dns.upstream_addr`, `conf.dns.upstream_port` as C strings, the secret
`servers[id].key` cut to `servers[id].key_len` bytes) and the functions and
system calls defined outside `iodns.c`. `rand k` is the `k`-th byte delivered
by `rand_bytes`; `ns_initparse msg len` is true when the parser returns a
non-negative value; `sys_socket k` is the result of the `k`-th `socket()` call
and `sys_connect k` the pair of return value and `errno` of `connect()` on that
socket. -/
structure env_t where
  upstream_addr : List Nat
  upstream_port : List Nat
  key : Nat → List Nat
  rand : Nat → Nat
  sha512 : List Nat → List Nat
  enc_init : List Nat → crypto_evp_t
  io_encrypt : List Nat → crypto_evp_t → List Nat × crypto_evp_t
  io_decrypt : List Nat → crypto_evp_t → List Nat × crypto_evp_t
  ns_initparse : List Nat → Int → Bool
  sys_socket : Nat → Int
  sys_connect : Nat → Int × Int

/-! ## Memory primitives -/

/-- The call `memcpy(dst + off, src, src.length)` on the bytes that start at `dst`. -/
def memcpy (dst : List Nat) (off : Nat) (src : List Nat) : List Nat :=
  dst.take off ++ src ++ dst.drop (off + src.length)

/-- The `len` bytes at `buf + off`. -/
def slice (buf : List Nat) (off len : Nat) : List Nat := (buf.drop off).take len

/-- The bytes of a C string: everything before the first NUL. -/
def cstr (s : List Nat) : List Nat := s.takeWhile (fun b => b != 0)

/-- The four bytes that `*((uint32_t *)p) = htonl(v)` stores at `p`. -/
def htonl_bytes (v : Nat) : List Nat :=
  [v / 16777216 % 256, v / 65536 % 256, v / 256 % 256, v % 256]

/-- The two bytes that `*((uint16_t *)p) = htons((uint16_t)v)` stores at `p`. -/
def htons_bytes (v : Int) : List Nat :=
  [(v % 65536).toNat / 256, (v % 65536).toNat % 256]

/-- A store of `src` at `conn->tx_buf + off`, recording whether it ends past
`tx_buf[BUF_SIZE - 1]`. -/
def tx_store (c : conn_t) (off : Nat) (src : List Nat) : conn_t :=
  { c with tx_buf := memcpy c.tx_buf off src,
           overrun := c.overrun || decide (BUF_SIZE < off + src.length) }

/-- The bytes that `rand_bytes(p, n)` stores when `pos` bytes were drawn before. -/
def rand_bytes (rnd : Nat → Nat) (pos n : Nat) : List Nat :=
  (List.range n).map (fun k => rnd (pos + k) % 256)

/-! ## Server selection -/

/-- The loop of `select_server`, one iteration per unit of `fuel`.
`rnd k` is the `k`-th byte delivered by `rand_bytes`, `health` is the column
`servers[i].health` for `i < conf.server_num`, and `pos` counts the bytes drawn
so far.  The result is the returned `id`, the updated health column and the
updated count; `none` means that `fuel` iterations were not enough. -/
def select_loop (rnd : Nat → Nat) : Nat → List Int → Nat → Option (Nat × List Int × Nat)
  | 0, _, _ => none
  | fuel + 1, health, pos =>
    let rand_num := rnd pos % 256
    let id := rand_num % health.length
    if 0 ≤ health.getD id 0 then
      some (id, health, pos + 1)
    else
      select_loop rnd fuel (health.set id (health.getD id 0 + 1)) (pos + 1)

/-- Number of rejections the health column can still absorb: the sum of
`-health` over the entries with negative health. -/
def deficit : List Int → Nat
  | [] => 0
  | h :: hs => (-h).toNat + deficit hs

/-- The function `select_server`: the loop run with as many iterations as it can
need (see `select_loop_returns`). -/
def select_server (rnd : Nat → Nat) (health : List Int) (pos : Nat) :
    Option (Nat × List Int × Nat) :=
  select_loop rnd (deficit health + 1) health pos

/-! ## Request builder (the straight-line part of `connect_server`) -/

/-- Lines 640-649 of `connect_server`: copy the payload, draw the salt, copy the
secret behind it, hash salt and secret, initialise the cipher, then write the
zeroed header with magic, upstream host and upstream port.  The result is the
state in which `io_encrypt` is first called. -/
def stage_header (x : env_t) (w : world_t) (c : conn_t) : world_t × conn_t :=
  let c := tx_store c 512 (slice c.rx_buf 0 c.rx_bytes.toNat)
  let c := tx_store c 276 (rand_bytes x.rand w.rand_pos 236)
  let w := { w with rand_pos := w.rand_pos + 236 }
  let c := tx_store c (276 + 236) (x.key c.server_id)
  let key := x.sha512 (slice c.tx_buf 276 (236 + (x.key c.server_id).length))
  let c := { c with enc_evp := x.enc_init key }
  let c := tx_store c 0 (List.replicate 276 0)
  let c := tx_store c 0 (htonl_bytes MAGIC)
  let c := tx_store c 4 (cstr x.upstream_addr ++ [0])
  let c := tx_store c 261 (cstr x.upstream_port ++ [0])
  (w, c)

/-- Lines 650-651 of `connect_server`: encrypt the 276 header bytes in place,
then copy the payload behind the salt again.  The result is the state in which
`io_encrypt` is called for the payload. -/
def stage_payload (x : env_t) (c : conn_t) : conn_t :=
  let r := x.io_encrypt (slice c.tx_buf 0 276) c.enc_evp
  let c := { tx_store c 0 r.1 with enc_evp := r.2 }
  tx_store c 512 (slice c.rx_buf 0 c.rx_bytes.toNat)

/-- Lines 652-653 of `connect_server`: encrypt the payload in place and set
`tx_bytes`. -/
def finish_request (x : env_t) (c : conn_t) : conn_t :=
  let r := x.io_encrypt (slice c.tx_buf 512 c.rx_bytes.toNat) c.enc_evp
  let c := { tx_store c 512 r.1 with enc_evp := r.2 }
  { c with tx_bytes := 512 + c.rx_bytes }

/-- Lines 640-653 of `connect_server`. -/
def build_request (x : env_t) (w : world_t) (c : conn_t) : world_t × conn_t :=
  ((stage_header x w c).1, finish_request x (stage_payload x (stage_header x w c).2))

/-! ## Callbacks -/

/-- The function `connect_server`; `fuel` bounds the depth of its recursion
(`none` means the bound was reached or the selector ran out of iterations). -/
def connect_server (x : env_t) : Nat → world_t → conn_t → Option (world_t × conn_t)
  | 0, _, _ => none
  | fuel + 1, w, c =>
    match select_server x.rand w.health w.rand_pos with
    | none => none
    | some (id, health, pos) =>
      let w := { w with health := health, rand_pos := pos }
      let c := { c with server_id := id, server_tried := c.server_tried + 1 }
      if x.ns_initparse (c.rx_buf.drop 2) (c.rx_bytes - 2) = false then
        some ({ w with closed := w.closed ++ [c.sock_local] }, { c with freed := c.freed + 1 })
      else
        let r := build_request x w c
        let w := r.1
        let c := r.2
        let k := w.n_socket
        let c := { c with sock_remote := x.sys_socket k }
        let w := { w with n_socket := k + 1 }
        if c.sock_remote < 0 then
          some ({ w with closed := w.closed ++ [c.sock_local] }, { c with freed := c.freed + 1 })
        else
          let w := { w with connects := w.connects ++ [c.server_id] }
          if (x.sys_connect k).1 ≠ 0 ∧ (x.sys_connect k).2 ≠ EINPROGRESS then
            let w := { w with health := w.health.set c.server_id (-10) }
            if c.server_tried < MAX_TRY then
              connect_server x fuel { w with closed := w.closed ++ [c.sock_remote] } c
            else
              some ({ w with closed := w.closed ++ [c.sock_local, c.sock_remote] },
                    { c with freed := c.freed + 1 })
          else
            some (w, { c with w_remote_write := some callback_t.connect_cb })

/-- Recursion depth that `connect_server` cannot exceed from the record `c`. -/
def tries_left (c : conn_t) : Nat := (MAX_TRY - c.server_tried).toNat + 1

/-- The function `udp_read_cb` up to the call of `connect_server`, for a record
`c` that `mem_new` returned.  `fd` is the UDP socket of the watcher and `dgram`
the result of `recvfrom`: `none` for the return value -1, otherwise the
datagram. -/
def udp_recv (fd : Int) (dgram : Option (List Nat)) (c : conn_t) : conn_t :=
  let data := (dgram.getD []).take (BUF_SIZE - 2)
  let c := { c with protocol := protocol_t.SOCK_DGRAM, sock_local := fd }
  let c := { c with rx_buf := memcpy c.rx_buf 2 data,
                    rx_bytes := if dgram.isSome then (data.length : Int) else -1 }
  let c := { c with rx_buf := memcpy c.rx_buf 0 (htons_bytes c.rx_bytes) }
  let c := { c with rx_bytes := c.rx_bytes + 2 }
  { c with server_tried := 0 }

/-- The function `udp_read_cb`; `fresh` is the result of `mem_new`. -/
def udp_read_cb (x : env_t) (fd : Int) (dgram : Option (List Nat)) (w : world_t)
    (fresh : Option conn_t) : Option (world_t × Option conn_t) :=
  match fresh with
  | none => some (w, none)
  | some c =>
    (connect_server x (tries_left (udp_recv fd dgram c)) w (udp_recv fd dgram c)).map
      (fun r => (r.1, some r.2))

/-- The function `local_read_cb`; `data` is the result of `recv`: `none` for the
return value -1, otherwise the bytes received. -/
def local_read_cb (x : env_t) (data : Option (List Nat)) (w : world_t) (c : conn_t) :
    Option (world_t × conn_t) :=
  let c := { c with w_local_read := false }
  let d := (data.getD []).take BUF_SIZE
  let c := { c with rx_buf := memcpy c.rx_buf 0 d,
                    rx_bytes := if data.isSome then (d.length : Int) else -1 }
  if c.rx_bytes ≤ 0 then
    some ({ w with closed := w.closed ++ [c.sock_local] }, { c with freed := c.freed + 1 })
  else
    connect_server x (tries_left { c with server_tried := 0 }) w { c with server_tried := 0 }

/-- The function `connect_cb`; `err` is the value of `geterror(w->fd)` and
`errno` the value of `errno` when it is tested. -/
def connect_cb (x : env_t) (err errno : Int) (w : world_t) (c : conn_t) :
    Option (world_t × conn_t) :=
  let c := { c with w_remote_write := none }
  if err = 0 then
    some (w, { c with w_remote_write := some callback_t.remote_write_cb, tx_offset := 0 })
  else if errno ≠ EINPROGRESS then
    let w := { w with health := w.health.set c.server_id (-10) }
    if c.server_tried < MAX_TRY then
      connect_server x (tries_left c) { w with closed := w.closed ++ [c.sock_remote] } c
    else
      some ({ w with closed := w.closed ++ [c.sock_local, c.sock_remote] },
            { c with freed := c.freed + 1 })
  else
    some (w, c)

/-- The function `remote_write_cb`; `n` is the result of `send` and `errno` the
value of `errno` after it.  The socket accepts the first `n` of the `tx_bytes`
bytes at `tx_buf + tx_offset`. -/
def remote_write_cb (n errno : Int) (w : world_t) (c : conn_t) : world_t × conn_t :=
  if n < 0 then
    if errno = EAGAIN ∨ errno = EWOULDBLOCK then
      (w, c)
    else
      ({ w with closed := w.closed ++ [c.sock_local, c.sock_remote] },
       { c with w_remote_write := none, freed := c.freed + 1 })
  else
    let w := { w with sent_remote :=
      w.sent_remote ++ slice c.tx_buf c.tx_offset.toNat (min n c.tx_bytes).toNat }
    if n < c.tx_bytes then
      (w, { c with tx_offset := c.tx_offset + n, tx_bytes := c.tx_bytes - n })
    else
      (w, { c with w_remote_write := none, w_remote_read := true })

/-- The function `remote_read_cb`; `data` is the result of `recv` on the remote
socket, `n` and `errno` the result of the `sendto` or `send` to the client and
`timer_ok` whether `mem_new` returned a timer. -/
def remote_read_cb (x : env_t) (data : Option (List Nat)) (n errno : Int) (timer_ok : Bool)
    (w : world_t) (c : conn_t) : world_t × conn_t :=
  let c := { c with w_remote_read := false }
  let d := (data.getD []).take BUF_SIZE
  let c := { c with rx_buf := memcpy c.rx_buf 0 d,
                    rx_bytes := if data.isSome then (d.length : Int) else -1 }
  if c.rx_bytes ≤ 0 then
    ({ w with closed := w.closed ++ [c.sock_local, c.sock_remote] },
     { c with freed := c.freed + 1 })
  else
    let w := { w with closed := w.closed ++ [c.sock_remote] }
    let r := x.io_decrypt (slice c.rx_buf 0 c.rx_bytes.toNat) c.enc_evp
    let c := { c with rx_buf := memcpy c.rx_buf 0 r.1, enc_evp := r.2 }
    if c.protocol = protocol_t.SOCK_DGRAM then
      if n < 0 then
        (w, { c with freed := c.freed + 1 })
      else
        ({ w with sent_client :=
            w.sent_client ++ slice c.rx_buf 2 (c.rx_bytes - 2).toNat }, c)
    else
      if n < 0 then
        if errno = EAGAIN ∨ errno = EWOULDBLOCK then
          (w, { c with rx_offset := 0, w_local_write := true })
        else
          ({ w with closed := w.closed ++ [c.sock_local] }, { c with freed := c.freed + 1 })
      else
        let w := { w with sent_client :=
          w.sent_client ++ slice c.rx_buf 0 (min n c.rx_bytes).toNat }
        if n < c.rx_bytes then
          (w, { c with rx_offset := n, rx_bytes := c.rx_bytes - n, w_local_write := true })
        else if timer_ok = false then
          ({ w with closed := w.closed ++ [c.sock_local, c.sock_remote] },
           { c with freed := c.freed + 1 })
        else
          ({ w with closed := w.closed ++ [c.sock_remote] }, { c with w_timer := true })

/-- The function `local_write_cb`; `n` and `errno` are the result of `send` and
`timer_ok` whether `mem_new` returned a timer.  The callback takes the record
from `w->data`, which `remote_read_cb` leaves unset when it starts the watcher;
here it runs on the record the watcher belongs to. -/
def local_write_cb (n errno : Int) (timer_ok : Bool) (w : world_t) (c : conn_t) :
    world_t × conn_t :=
  if n < 0 then
    if errno = EAGAIN ∨ errno = EWOULDBLOCK then
      (w, c)
    else
      ({ w with closed := w.closed ++ [c.sock_local, c.sock_remote] },
       { c with freed := c.freed + 1 })
  else
    let w := { w with sent_client :=
      w.sent_client ++ slice c.rx_buf c.rx_offset.toNat (min n c.rx_bytes).toNat }
    if n < c.rx_bytes then
      (w, { c with rx_offset := c.rx_offset + n, rx_bytes := c.rx_bytes - n })
    else if timer_ok = false then
      ({ w with closed := w.closed ++ [c.sock_local, c.sock_remote] },
       { c with freed := c.freed + 1 })
    else
      ({ w with closed := w.closed ++ [c.sock_remote] }, { c with w_timer := true })

/-- The function `closewait_cb`. -/
def closewait_cb (w : world_t) (c : conn_t) : world_t × conn_t :=
  ({ w with closed := w.closed ++ [c.sock_local] },
   { c with w_timer := false, freed := c.freed + 1 })

/-! ## The event loop seen from one connection -/

/-- A readiness event for a watcher of the connection, with the results of the
system calls its callback makes. -/
inductive event_t
  | connect_ready (err errno : Int)
  | remote_writable (n errno : Int)
  | remote_readable (data : Option (List Nat)) (n errno : Int) (timer_ok : Bool)
  | local_writable (n errno : Int) (timer_ok : Bool)
  | local_readable (data : Option (List Nat))
  | timeout

/-- One dispatch of the event loop: the callback runs when its watcher is
started; the record is followed until it is released. -/
def dispatch (x : env_t) (e : event_t) (s : world_t × conn_t) : Option (world_t × conn_t) :=
  if s.2.freed ≠ 0 then some s else
  match e with
  | event_t.connect_ready err errno =>
    if s.2.w_remote_write = some callback_t.connect_cb then connect_cb x err errno s.1 s.2
    else some s
  | event_t.remote_writable n errno =>
    if s.2.w_remote_write = some callback_t.remote_write_cb then
      some (remote_write_cb n errno s.1 s.2)
    else some s
  | event_t.remote_readable data n errno timer_ok =>
    if s.2.w_remote_read = true then some (remote_read_cb x data n errno timer_ok s.1 s.2)
    else some s
  | event_t.local_writable n errno timer_ok =>
    if s.2.w_local_write = true then some (local_write_cb n errno timer_ok s.1 s.2)
    else some s
  | event_t.local_readable data =>
    if s.2.w_local_read = true then local_read_cb x data s.1 s.2
    else some s
  | event_t.timeout =>
    if s.2.w_timer = true then some (closewait_cb s.1 s.2) else some s

/-- The event loop delivering a sequence of events to the connection. -/
def run (x : env_t) : List event_t → world_t × conn_t → Option (world_t × conn_t)
  | [], s => some s
  | e :: es, s =>
    match dispatch x e s with
    | none => none
    | some s2 => run x es s2

/-! ## One pass through `connect_server` -/

/-- How a pass through the body of `connect_server` ends: with a `return`, or
with the recursive call on the given state. -/
inductive attempt_t
  | done (w : world_t) (c : conn_t)
  | again (w : world_t) (c : conn_t)

/-- The body of `connect_server` with the recursive call left to the caller;
`connect_server_succ` states that `connect_server` is this body iterated. -/
def connect_attempt (x : env_t) (w : world_t) (c : conn_t) : Option attempt_t :=
  match select_server x.rand w.health w.rand_pos with
  | none => none
  | some (id, health, pos) =>
    let w := { w with health := health, rand_pos := pos }
    let c := { c with server_id := id, server_tried := c.server_tried + 1 }
    if x.ns_initparse (c.rx_buf.drop 2) (c.rx_bytes - 2) = false then
      some (attempt_t.done { w with closed := w.closed ++ [c.sock_local] }
        { c with freed := c.freed + 1 })
    else
      let r := build_request x w c
      let w := r.1
      let c := r.2
      let k := w.n_socket
      let c := { c with sock_remote := x.sys_socket k }
      let w := { w with n_socket := k + 1 }
      if c.sock_remote < 0 then
        some (attempt_t.done { w with closed := w.closed ++ [c.sock_local] }
          { c with freed := c.freed + 1 })
      else
        let w := { w with connects := w.connects ++ [c.server_id] }
        if (x.sys_connect k).1 ≠ 0 ∧ (x.sys_connect k).2 ≠ EINPROGRESS then
          let w := { w with health := w.health.set c.server_id (-10) }
          if c.server_tried < MAX_TRY then
            some (attempt_t.again { w with closed := w.closed ++ [c.sock_remote] } c)
          else
            some (attempt_t.done { w with closed := w.closed ++ [c.sock_local, c.sock_remote] }
              { c with freed := c.freed + 1 })
        else
          some (attempt_t.done w { c with w_remote_write := some callback_t.connect_cb })

/-- What `connect_server` does after a pass through its body. -/
def attempt_next (x : env_t) (fuel : Nat) : attempt_t → Option (world_t × conn_t)
  | attempt_t.done w c => some (w, c)
  | attempt_t.again w c => connect_server x fuel w c

/-! ## Predicates used in the proofs -/

/-- What `connect_server` leaves as it found it, and the bounds on what it
counts. -/
def cs_frame (w : world_t) (c : conn_t) (w2 : world_t) (c2 : conn_t) : Prop :=
  c2.rx_buf = c.rx_buf ∧ c2.rx_bytes = c.rx_bytes ∧ c2.protocol = c.protocol ∧
  c2.sock_local = c.sock_local ∧ c2.w_local_read = c.w_local_read ∧
  c2.w_local_write = c.w_local_write ∧ c2.w_remote_read = c.w_remote_read ∧
  c2.w_timer = c.w_timer ∧ c2.rx_offset = c.rx_offset ∧
  w2.sent_client = w.sent_client ∧ w2.sent_remote = w.sent_remote ∧
  w2.health.length = w.health.length ∧
  c.server_tried ≤ c2.server_tried ∧
  (c.server_tried < MAX_TRY → c2.server_tried ≤ MAX_TRY) ∧
  w.n_socket ≤ w2.n_socket ∧
  ((w2.n_socket : Int) - w.n_socket ≤ c2.server_tried - c.server_tried) ∧
  w.connects.length ≤ w2.connects.length ∧
  ((w2.connects.length : Int) - w.connects.length ≤ c2.server_tried - c.server_tried) ∧
  c.freed ≤ c2.freed

/-- A callback that leaves the attempt counter, the counted system calls, the
local read watcher and the health column as they are. -/
def tried_frame (s s2 : world_t × conn_t) : Prop :=
  s2.2.server_tried = s.2.server_tried ∧ s2.1.n_socket = s.1.n_socket ∧
  s2.1.connects = s.1.connects ∧ s2.2.w_local_read = s.2.w_local_read ∧
  s2.1.health = s.1.health

/-- The invariant of a query after `server_tried` was reset: the counter is
between 0 and `MAX_TRY`, the local read watcher is stopped, and the `socket()`
and `connect()` calls made since the reset (`n0` and `l0` were made before it)
are no more than the counter. -/
def tried_inv (n0 l0 : Nat) (s : world_t × conn_t) : Prop :=
  s.2.server_tried ≤ MAX_TRY ∧ 0 ≤ s.2.server_tried ∧ s.2.w_local_read = false ∧
  ((s.1.n_socket : Int) - n0 ≤ s.2.server_tried) ∧
  ((s.1.connects.length : Int) - l0 ≤ s.2.server_tried) ∧
  1 ≤ s.1.health.length

/-- Every health value lies between the penalty -10 and 0. -/
def health_ok (h : List Int) : Prop := ∀ v ∈ h, -10 ≤ v ∧ v ≤ 0

/-- Every `socket()` call succeeds and no `connect()` call returns 0: each
connection attempt either fails at once or is reported in progress. -/
def refusing (x : env_t) : Prop :=
  (∀ k, 0 ≤ x.sys_socket k) ∧ (∀ k, (x.sys_connect k).1 ≠ 0)

/-- The parser accepts the query held by the record. -/
def parses (x : env_t) (c : conn_t) : Prop :=
  x.ns_initparse (c.rx_buf.drop 2) (c.rx_bytes - 2) = true

/-- What stays fixed while every attempt of a query is refused: nothing was sent
to the client, the health column keeps its length and its range, the query is
unchanged and only the remote write watcher is ever started. -/
def down_frame (w0 : world_t) (c0 : conn_t) (s : world_t × conn_t) : Prop :=
  s.1.sent_client = w0.sent_client ∧ s.1.health.length = w0.health.length ∧
  health_ok s.1.health ∧ s.2.rx_buf = c0.rx_buf ∧ s.2.rx_bytes = c0.rx_bytes ∧
  s.2.w_local_read = false ∧ s.2.w_local_write = false ∧ s.2.w_remote_read = false ∧
  s.2.w_timer = false

/-- A refused query that waits for the result of a `connect()`. -/
def down_pending (w0 : world_t) (c0 : conn_t) (s : world_t × conn_t) : Prop :=
  down_frame w0 c0 s ∧ s.2.w_remote_write = some callback_t.connect_cb ∧ s.2.freed = 0 ∧
  1 ≤ s.2.server_tried ∧ s.2.server_tried ≤ MAX_TRY ∧ s.2.server_id < s.1.health.length

/-- A refused query that was given up after the last attempt. -/
def down_done (w0 : world_t) (c0 : conn_t) (s : world_t × conn_t) : Prop :=
  down_frame w0 c0 s ∧ s.2.w_remote_write = none ∧ s.2.freed = 1 ∧
  s.2.server_tried = MAX_TRY ∧ s.1.health.getD s.2.server_id 0 = -10

/-- The event reports to `connect_cb` a failure that it acts on: `geterror` is not
0 and `errno` is not `EINPROGRESS`. -/
def failed_connect (e : event_t) : Prop :=
  ∃ err errno, e = event_t.connect_ready err errno ∧ err ≠ 0 ∧ errno ≠ EINPROGRESS

/-- The three fields that `build_request` computes from the state `(w, c)`. -/
def built (x : env_t) (w : world_t) (c : conn_t) (tb : List Nat) (ev : crypto_evp_t)
    (ov : Bool) : Prop :=
  tb = (build_request x w c).2.tx_buf ∧ ev = (build_request x w c).2.enc_evp ∧
  ov = (build_request x w c).2.overrun

/-- The record a pass through `connect_server` ends with. -/
def attempt_conn : attempt_t → conn_t
  | attempt_t.done _ c => c
  | attempt_t.again _ c => c

/-- The state outside the record a pass through `connect_server` ends with. -/
def attempt_world : attempt_t → world_t
  | attempt_t.done w _ => w
  | attempt_t.again w _ => w

/-- The record `c2` holds the request that `build_request` made for the query of
`c0` from the state `(w1, c1)`. -/
def holds_request (x : env_t) (c0 : conn_t) (w1 : world_t) (c1 c2 : conn_t) : Prop :=
  c1.rx_buf = c0.rx_buf ∧ c1.rx_bytes = c0.rx_bytes ∧ BUF_SIZE ≤ c1.tx_buf.length ∧
  c1.server_id = c2.server_id ∧
  c2.tx_buf = (build_request x w1 c1).2.tx_buf ∧
  c2.enc_evp = (build_request x w1 c1).2.enc_evp ∧
  c2.overrun = (build_request x w1 c1).2.overrun ∧
  c2.tx_bytes = 512 + c0.rx_bytes ∧ c2.rx_buf = c0.rx_buf ∧ c2.rx_bytes = c0.rx_bytes

/-- The record with which `local_read_cb` calls `connect_server` after `recv`
returned the bytes `d`. -/
def tcp_recv (d : List Nat) (c : conn_t) : conn_t :=
  { c with w_local_read := false, rx_buf := memcpy c.rx_buf 0 (d.take BUF_SIZE),
           rx_bytes := ((d.take BUF_SIZE).length : Int), server_tried := 0 }

/-! ## Queries and concrete inputs -/

/-- The life of a UDP query: `udp_read_cb` on a record that `mem_new` returned,
then the events the loop delivers to it. -/
def udp_query (x : env_t) (fd : Int) (dgram : Option (List Nat)) (w : world_t) (c : conn_t)
    (events : List event_t) : Option (world_t × conn_t) :=
  match udp_read_cb x fd dgram w (some c) with
  | some (w1, some c1) => run x events (w1, c1)
  | _ => none

/-- The 29-byte DNS query for the A record of `example.com`. -/
def example_query : List Nat :=
  [18, 52, 1, 0, 0, 1, 0, 0, 0, 0, 0, 0,
   7, 101, 120, 97, 109, 112, 108, 101, 3, 99, 111, 109, 0, 0, 1, 0, 1]

/-- An environment in which every connection is refused at once (`connect`
returns -1 with `errno` 111, `ECONNREFUSED`) and every random byte is 0.
The upstream is `8.8.8.8` port `53`, every secret is `abc`; the hash and the
cipher are stand-ins (a prefix, an exclusive-or with a constant) and the parser
accepts every message that has room for the 12-byte DNS header. -/
def env_down : env_t where
  upstream_addr := [56, 46, 56, 46, 56, 46, 56]
  upstream_port := [53, 51]
  key := fun _ => [97, 98, 99]
  rand := fun _ => 0
  sha512 := fun l => l.take 64
  enc_init := fun _ => ⟨⟨0, 0, []⟩, ⟨0, 0, []⟩⟩
  io_encrypt := fun l e => (l.map (fun b => Nat.xor b 85), e)
  io_decrypt := fun l e => (l.map (fun b => Nat.xor b 85), e)
  ns_initparse := fun _ len => decide (12 ≤ len)
  sys_socket := fun k => 6 + (k : Int)
  sys_connect := fun _ => (-1, 111)

/-- The environment `env_down` with every `connect` reported in progress. -/
def env_up : env_t := { env_down with sys_connect := fun _ => (-1, EINPROGRESS) }

/-- A record as `mem_new` returns it, with no watcher started. -/
def conn_new : conn_t where
  w_local_read := false
  w_local_write := false
  w_remote_read := false
  w_remote_write := none
  rx_bytes := 0
  tx_bytes := 0
  rx_offset := 0
  tx_offset := 0
  sock_local := 0
  sock_remote := 0
  protocol := protocol_t.SOCK_STREAM
  server_id := 0
  server_tried := 0
  enc_evp := ⟨⟨0, 0, []⟩, ⟨0, 0, []⟩⟩
  rx_buf := List.replicate 8192 0
  tx_buf := List.replicate 8192 0
  w_timer := false
  freed := 0
  overrun := false

/-- A record as `accept_cb` leaves it: socket 5 accepted, local read watcher
started. -/
def conn_tcp : conn_t := { conn_new with w_local_read := true, sock_local := 5 }

/-- Two servers, both available, and nothing logged yet. -/
def world_two : world_t := ⟨[0, 0], 0, 0, [], [], [], []⟩

/-- A record that waits for its connect with a request of 600 bytes. -/
def conn_wait600 : conn_t :=
  { conn_new with w_remote_write := some callback_t.connect_cb, tx_bytes := 600 }

/-- The reply of the remote server to `example_query` under the stand-in cipher
of `env_down`: the two length bytes and 29 answer bytes (here the query
itself), encrypted. -/
def example_reply : List Nat := ([0, 29] ++ example_query).map (fun b => Nat.xor b 85)

/-- The environment `env_up` with the random source delivering the bytes
0, 1, 2, ... in turn. -/
def env_counting : env_t := { env_up with rand := fun k => k }

/-- The environment `env_counting` with the first `connect` refused at once
(-1 with `errno` 111) and every later one reported in progress. -/
def env_first_refused : env_t :=
  { env_counting with
    sys_connect := fun k => if k = 0 then (-1, 111) else (-1, EINPROGRESS) }

/-! ## Lemmas on buffers -/

theorem getElem?_slice (buf : List Nat) (off len i : Nat) :
    (slice buf off len)[i]? = if i < len then buf[off + i]? else none := by
  simp [slice, List.getElem?_take, List.getElem?_drop]

theorem getElem?_memcpy (dst : List Nat) (off : Nat) (src : List Nat) (i : Nat)
    (h : off ≤ dst.length) :
    (memcpy dst off src)[i]? =
      if i < off then dst[i]? else if i < off + src.length then src[i - off]? else dst[i]? := by
  unfold memcpy
  by_cases h1 : i < off
  · rw [if_pos h1, List.append_assoc, List.getElem?_append_left (by simp; omega)]
    simp [List.getElem?_take, h1]
  · rw [if_neg h1, List.append_assoc, List.getElem?_append_right (by simp; omega)]
    have hl : (List.take off dst).length = off := by simp; omega
    rw [hl]
    by_cases h2 : i < off + src.length
    · rw [if_pos h2, List.getElem?_append_left (by omega)]
    · rw [if_neg h2, List.getElem?_append_right (by omega), List.getElem?_drop]
      congr 1
      omega

theorem length_memcpy (dst : List Nat) (off : Nat) (src : List Nat) (h : off ≤ dst.length) :
    (memcpy dst off src).length = max dst.length (off + src.length) := by
  simp [memcpy]
  omega

theorem le_length_memcpy (dst : List Nat) (off : Nat) (src : List Nat) (k : Nat)
    (h : off ≤ dst.length) (hk : k ≤ dst.length) : k ≤ (memcpy dst off src).length := by
  rw [length_memcpy dst off src h]
  omega

theorem slice_memcpy_sub (dst : List Nat) (off : Nat) (src : List Nat) (a n : Nat)
    (h : off ≤ dst.length) (ha : off ≤ a) (hk : a + n ≤ off + src.length) :
    slice (memcpy dst off src) a n = slice src (a - off) n := by
  apply List.ext_getElem?
  intro i
  rw [getElem?_slice, getElem?_slice, getElem?_memcpy _ _ _ _ h]
  by_cases hi : i < n
  · rw [if_pos hi, if_pos hi, if_neg (by omega), if_pos (by omega)]
    congr 1
    omega
  · rw [if_neg hi, if_neg hi]

theorem slice_all (l : List Nat) (n : Nat) (h : n = l.length) : slice l 0 n = l := by
  subst h
  simp [slice]

theorem slice_memcpy_same (dst : List Nat) (off : Nat) (src : List Nat) (n : Nat)
    (h : off ≤ dst.length) (hn : n = src.length) : slice (memcpy dst off src) off n = src := by
  rw [slice_memcpy_sub dst off src off n h (le_refl _) (by omega), Nat.sub_self, slice_all _ _ hn]

theorem slice_memcpy_before (dst : List Nat) (off : Nat) (src : List Nat) (a n : Nat)
    (h : off ≤ dst.length) (ha : a + n ≤ off) :
    slice (memcpy dst off src) a n = slice dst a n := by
  apply List.ext_getElem?
  intro i
  rw [getElem?_slice, getElem?_slice, getElem?_memcpy _ _ _ _ h]
  by_cases hi : i < n
  · rw [if_pos hi, if_pos hi, if_pos (by omega)]
  · rw [if_neg hi, if_neg hi]

theorem slice_memcpy_after (dst : List Nat) (off : Nat) (src : List Nat) (a n : Nat)
    (h : off ≤ dst.length) (ha : off + src.length ≤ a) :
    slice (memcpy dst off src) a n = slice dst a n := by
  apply List.ext_getElem?
  intro i
  rw [getElem?_slice, getElem?_slice, getElem?_memcpy _ _ _ _ h]
  by_cases hi : i < n
  · rw [if_pos hi, if_pos hi, if_neg (by omega), if_neg (by omega)]
  · rw [if_neg hi, if_neg hi]

theorem slice_split (buf : List Nat) (a n n1 n2 : Nat) (h : n = n1 + n2) :
    slice buf a n = slice buf a n1 ++ slice buf (a + n1) n2 := by
  subst h
  simp [slice, List.take_add, List.drop_drop]

theorem slice_replicate (k a n : Nat) (h : a + n ≤ k) :
    slice (List.replicate k 0) a n = List.replicate n 0 := by
  simp [slice, List.drop_replicate, List.take_replicate]
  omega

theorem length_rand_bytes (rnd : Nat → Nat) (pos n : Nat) : (rand_bytes rnd pos n).length = n := by
  simp [rand_bytes]

/-! ## Lemmas on the health column -/

theorem deficit_set_succ (health : List Int) (id : Nat) (hid : id < health.length)
    (hneg : health.getD id 0 < 0) :
    deficit (health.set id (health.getD id 0 + 1)) + 1 = deficit health := by
  induction health generalizing id with
  | nil => simp at hid
  | cons h hs ih =>
    cases id with
    | zero =>
      simp only [List.getD_cons_zero] at hneg ⊢
      simp only [List.set_cons_zero, deficit]
      omega
    | succ n =>
      simp only [List.getD_cons_succ] at hneg ⊢
      simp only [List.set_cons_succ, deficit]
      have := ih n (by simpa using hid) hneg
      omega

theorem select_loop_returns (rnd : Nat → Nat) (fuel : Nat) (health : List Int) (pos : Nat)
    (hn : 1 ≤ health.length) (hfuel : deficit health < fuel) :
    ∃ id health2 pos2, select_loop rnd fuel health pos = some (id, health2, pos2) ∧
      pos < pos2 ∧ pos2 - pos ≤ 1 + deficit health ∧ id < health.length ∧
      health2.length = health.length ∧ 0 ≤ health2.getD id 0 := by
  induction fuel generalizing health pos with
  | zero => omega
  | succ fuel ih =>
    have hid : rnd pos % 256 % health.length < health.length := Nat.mod_lt _ (by omega)
    by_cases h : 0 ≤ health.getD (rnd pos % 256 % health.length) 0
    · refine ⟨rnd pos % 256 % health.length, health, pos + 1, ?_, ?_, ?_, hid, rfl, h⟩
      · simp only [select_loop, if_pos h]
      · omega
      · omega
    · have hd := deficit_set_succ health _ hid (by omega)
      obtain ⟨id, health2, pos2, he, h1, h2, h3, h4, h5⟩ :=
        ih (health.set (rnd pos % 256 % health.length)
          (health.getD (rnd pos % 256 % health.length) 0 + 1)) (pos + 1)
          (by simpa using hn) (by omega)
      refine ⟨id, health2, pos2, ?_, ?_, ?_, ?_, ?_, h5⟩
      · simp only [select_loop, if_neg h]
        exact he
      · omega
      · omega
      · simpa using h3
      · simpa using h4

theorem stage_header_tx_buf (x : env_t) (w : world_t) (c : conn_t) :
    (stage_header x w c).2.tx_buf =
      memcpy (memcpy (memcpy (memcpy (memcpy (memcpy (memcpy c.tx_buf
        512 (slice c.rx_buf 0 c.rx_bytes.toNat))
        276 (rand_bytes x.rand w.rand_pos 236))
        512 (x.key c.server_id))
        0 (List.replicate 276 0))
        0 (htonl_bytes MAGIC))
        4 (cstr x.upstream_addr ++ [0]))
        261 (cstr x.upstream_port ++ [0]) := rfl

theorem stage_header_enc_evp (x : env_t) (w : world_t) (c : conn_t) :
    (stage_header x w c).2.enc_evp =
      x.enc_init (x.sha512 (slice (memcpy (memcpy (memcpy c.tx_buf
        512 (slice c.rx_buf 0 c.rx_bytes.toNat))
        276 (rand_bytes x.rand w.rand_pos 236))
        512 (x.key c.server_id)) 276 (236 + (x.key c.server_id).length))) := rfl

theorem stage_header_layout (x : env_t) (w : world_t) (c : conn_t)
    (hbuf : BUF_SIZE ≤ c.tx_buf.length)
    (hhost : (cstr x.upstream_addr).length ≤ 256)
    (hport : (cstr x.upstream_port).length ≤ 14) :
    slice (stage_header x w c).2.tx_buf 0 4 = [0x52, 0x6F, 0x6E, 0x61] ∧
    slice (stage_header x w c).2.tx_buf 4 257 =
      cstr x.upstream_addr ++ List.replicate (257 - (cstr x.upstream_addr).length) 0 ∧
    slice (stage_header x w c).2.tx_buf 261 15 =
      cstr x.upstream_port ++ List.replicate (15 - (cstr x.upstream_port).length) 0 ∧
    slice (stage_header x w c).2.tx_buf 276 236 = rand_bytes x.rand w.rand_pos 236 ∧
    (stage_header x w c).2.enc_evp =
      x.enc_init (x.sha512 (rand_bytes x.rand w.rand_pos 236 ++ x.key c.server_id)) := by
  have hB : BUF_SIZE = 8192 := rfl
  rw [stage_header_tx_buf, stage_header_enc_evp]
  generalize hP : slice c.rx_buf 0 c.rx_bytes.toNat = P
  generalize hS : rand_bytes x.rand w.rand_pos 236 = S
  have hSl : S.length = 236 := by rw [← hS, length_rand_bytes]
  generalize hK : x.key c.server_id = K
  generalize hH : cstr x.upstream_addr = H at hhost ⊢
  generalize hQ : cstr x.upstream_port = Q at hport ⊢
  have hM : (htonl_bytes MAGIC).length = 4 := rfl
  have hZ : (List.replicate 276 0 : List Nat).length = 276 := List.length_replicate _ _
  have l1 : 8192 ≤ (memcpy c.tx_buf 512 P).length :=
    le_length_memcpy _ _ _ _ (by omega) (by omega)
  have l2 : 8192 ≤ (memcpy (memcpy c.tx_buf 512 P) 276 S).length :=
    le_length_memcpy _ _ _ _ (by omega) l1
  have l3 : 8192 ≤ (memcpy (memcpy (memcpy c.tx_buf 512 P) 276 S) 512 K).length :=
    le_length_memcpy _ _ _ _ (by omega) l2
  generalize hT3 : memcpy (memcpy (memcpy c.tx_buf 512 P) 276 S) 512 K = T3 at l3 ⊢
  have l4 : 8192 ≤ (memcpy T3 0 (List.replicate 276 0)).length :=
    le_length_memcpy _ _ _ _ (by omega) l3
  have l5 : 8192 ≤ (memcpy (memcpy T3 0 (List.replicate 276 0)) 0 (htonl_bytes MAGIC)).length :=
    le_length_memcpy _ _ _ _ (by omega) l4
  have l6 : 8192 ≤ (memcpy (memcpy (memcpy T3 0 (List.replicate 276 0)) 0 (htonl_bytes MAGIC))
      4 (H ++ [0])).length := le_length_memcpy _ _ _ _ (by omega) l5
  have hH0 : (H ++ [0]).length = H.length + 1 := by simp
  have hQ0 : (Q ++ [0]).length = Q.length + 1 := by simp
  refine ⟨?_, ?_, ?_, ?_, ?_⟩
  · rw [slice_memcpy_before _ _ _ _ _ (by omega) (by omega),
      slice_memcpy_before _ _ _ _ _ (by omega) (by omega),
      slice_memcpy_same _ _ _ _ (by omega) hM.symm]
    rfl
  · rw [slice_memcpy_before _ _ _ _ _ (by omega) (by omega),
      slice_split _ 4 257 (H.length + 1) (256 - H.length) (by omega),
      slice_memcpy_same _ _ _ _ (by omega) hH0.symm,
      slice_memcpy_after _ _ _ _ _ (by omega) (by omega),
      slice_memcpy_after _ _ _ _ _ (by omega) (by omega),
      slice_memcpy_sub _ _ _ _ _ (by omega) (by omega) (by omega),
      slice_replicate _ _ _ (by omega)]
    have : 257 - H.length = 1 + (256 - H.length) := by omega
    rw [this, List.replicate_add]
    simp
  · rw [slice_split _ 261 15 (Q.length + 1) (14 - Q.length) (by omega),
      slice_memcpy_same _ _ _ _ (by omega) hQ0.symm,
      slice_memcpy_after _ _ _ _ _ (by omega) (by omega),
      slice_memcpy_after _ _ _ _ _ (by omega) (by omega),
      slice_memcpy_after _ _ _ _ _ (by omega) (by omega),
      slice_memcpy_sub _ _ _ _ _ (by omega) (by omega) (by omega),
      slice_replicate _ _ _ (by omega)]
    have : 15 - Q.length = 1 + (14 - Q.length) := by omega
    rw [this, List.replicate_add]
    simp
  · rw [slice_memcpy_after _ _ _ _ _ (by omega) (by omega),
      slice_memcpy_after _ _ _ _ _ (by omega) (by omega),
      slice_memcpy_after _ _ _ _ _ (by omega) (by omega),
      slice_memcpy_after _ _ _ _ _ (by omega) (by omega), ← hT3,
      slice_memcpy_before _ _ _ _ _ (by omega) (by omega),
      slice_memcpy_same _ _ _ _ (by omega) hSl.symm]
  · rw [← hT3, slice_split _ 276 _ 236 K.length rfl,
      slice_memcpy_before _ _ _ _ _ (by omega) (by omega),
      slice_memcpy_same _ _ _ _ (by omega) hSl.symm,
      slice_memcpy_same _ _ _ _ (by omega) rfl]

theorem connect_server_succ (x : env_t) (fuel : Nat) (w : world_t) (c : conn_t) :
    connect_server x (fuel + 1) w c = (connect_attempt x w c).bind (attempt_next x fuel) := by
  rw [connect_server, connect_attempt]
  cases hsel : select_server x.rand w.health w.rand_pos with
  | none => rfl
  | some r =>
    obtain ⟨id, health, pos⟩ := r
    simp only []
    split_ifs <;> rfl

theorem build_request_frame (x : env_t) (w : world_t) (c : conn_t) :
    ∃ tb ev ov, built x w c tb ev ov ∧ build_request x w c =
      ({ w with rand_pos := w.rand_pos + 236 },
       { c with tx_buf := tb, tx_bytes := 512 + c.rx_bytes, enc_evp := ev, overrun := ov }) := by
  simp only [built, build_request, stage_header, stage_payload, finish_request, tx_store]
  exact ⟨_, _, _, ⟨rfl, rfl, rfl⟩, rfl⟩

theorem select_server_returns (rnd : Nat → Nat) (health : List Int) (pos : Nat)
    (hn : 1 ≤ health.length) :
    ∃ id health2 pos2, select_server rnd health pos = some (id, health2, pos2) ∧
      pos < pos2 ∧ pos2 - pos ≤ 1 + deficit health ∧ id < health.length ∧
      health2.length = health.length ∧ 0 ≤ health2.getD id 0 :=
  select_loop_returns rnd (deficit health + 1) health pos hn (by omega)

theorem connect_attempt_cases (x : env_t) (w : world_t) (c : conn_t)
    (hn : 1 ≤ w.health.length) :
    ∃ id health pos tb ev ov,
      select_server x.rand w.health w.rand_pos = some (id, health, pos) ∧
      id < w.health.length ∧ health.length = w.health.length ∧ 0 ≤ health.getD id 0 ∧
      built x { w with health := health, rand_pos := pos }
        { c with server_id := id, server_tried := c.server_tried + 1 } tb ev ov ∧
      ((x.ns_initparse (c.rx_buf.drop 2) (c.rx_bytes - 2) = false ∧
        connect_attempt x w c = some (attempt_t.done
          { w with health := health, rand_pos := pos, closed := w.closed ++ [c.sock_local] }
          { c with server_id := id, server_tried := c.server_tried + 1,
                   freed := c.freed + 1 })) ∨
       (x.ns_initparse (c.rx_buf.drop 2) (c.rx_bytes - 2) = true ∧
        x.sys_socket w.n_socket < 0 ∧
        connect_attempt x w c = some (attempt_t.done
          { w with health := health, rand_pos := pos + 236, n_socket := w.n_socket + 1,
                   closed := w.closed ++ [c.sock_local] }
          { c with server_id := id, server_tried := c.server_tried + 1,
                   tx_buf := tb, tx_bytes := 512 + c.rx_bytes, enc_evp := ev, overrun := ov,
                   sock_remote := x.sys_socket w.n_socket, freed := c.freed + 1 })) ∨
       (x.ns_initparse (c.rx_buf.drop 2) (c.rx_bytes - 2) = true ∧
        0 ≤ x.sys_socket w.n_socket ∧
        ((x.sys_connect w.n_socket).1 ≠ 0 ∧ (x.sys_connect w.n_socket).2 ≠ EINPROGRESS) ∧
        c.server_tried + 1 < MAX_TRY ∧
        connect_attempt x w c = some (attempt_t.again
          { w with health := health.set id (-10), rand_pos := pos + 236,
                   n_socket := w.n_socket + 1, connects := w.connects ++ [id],
                   closed := w.closed ++ [x.sys_socket w.n_socket] }
          { c with server_id := id, server_tried := c.server_tried + 1,
                   tx_buf := tb, tx_bytes := 512 + c.rx_bytes, enc_evp := ev, overrun := ov,
                   sock_remote := x.sys_socket w.n_socket })) ∨
       (x.ns_initparse (c.rx_buf.drop 2) (c.rx_bytes - 2) = true ∧
        0 ≤ x.sys_socket w.n_socket ∧
        ((x.sys_connect w.n_socket).1 ≠ 0 ∧ (x.sys_connect w.n_socket).2 ≠ EINPROGRESS) ∧
        MAX_TRY ≤ c.server_tried + 1 ∧
        connect_attempt x w c = some (attempt_t.done
          { w with health := health.set id (-10), rand_pos := pos + 236,
                   n_socket := w.n_socket + 1, connects := w.connects ++ [id],
                   closed := w.closed ++ [c.sock_local, x.sys_socket w.n_socket] }
          { c with server_id := id, server_tried := c.server_tried + 1,
                   tx_buf := tb, tx_bytes := 512 + c.rx_bytes, enc_evp := ev, overrun := ov,
                   sock_remote := x.sys_socket w.n_socket, freed := c.freed + 1 })) ∨
       (x.ns_initparse (c.rx_buf.drop 2) (c.rx_bytes - 2) = true ∧
        0 ≤ x.sys_socket w.n_socket ∧
        ¬ ((x.sys_connect w.n_socket).1 ≠ 0 ∧ (x.sys_connect w.n_socket).2 ≠ EINPROGRESS) ∧
        connect_attempt x w c = some (attempt_t.done
          { w with health := health, rand_pos := pos + 236,
                   n_socket := w.n_socket + 1, connects := w.connects ++ [id] }
          { c with server_id := id, server_tried := c.server_tried + 1,
                   tx_buf := tb, tx_bytes := 512 + c.rx_bytes, enc_evp := ev, overrun := ov,
                   sock_remote := x.sys_socket w.n_socket,
                   w_remote_write := some callback_t.connect_cb }))) := by
  obtain ⟨id, health, pos, hsel, -, -, hid, hlen, hh⟩ :=
    select_server_returns x.rand w.health w.rand_pos hn
  obtain ⟨tb, ev, ov, hbt, hb⟩ := build_request_frame x
    { w with health := health, rand_pos := pos }
    { c with server_id := id, server_tried := c.server_tried + 1 }
  refine ⟨id, health, pos, tb, ev, ov, hsel, hid, hlen, hh, hbt, ?_⟩
  rw [connect_attempt, hsel]
  simp only []
  rw [hb]
  simp only []
  by_cases hp : x.ns_initparse (c.rx_buf.drop 2) (c.rx_bytes - 2) = false
  · left
    exact ⟨hp, by rw [if_pos hp]⟩
  · right
    have hp2 : x.ns_initparse (c.rx_buf.drop 2) (c.rx_bytes - 2) = true := by simpa using hp
    rw [if_neg hp]
    by_cases hs : x.sys_socket w.n_socket < 0
    · left
      exact ⟨hp2, hs, by rw [if_pos hs]⟩
    · right
      rw [if_neg hs]
      by_cases hf : (x.sys_connect w.n_socket).1 ≠ 0 ∧ (x.sys_connect w.n_socket).2 ≠ EINPROGRESS
      · rw [if_pos hf]
        by_cases ht : c.server_tried + 1 < MAX_TRY
        · left
          exact ⟨hp2, by omega, hf, ht, by rw [if_pos ht]⟩
        · right; left
          exact ⟨hp2, by omega, hf, by omega, by rw [if_neg ht]⟩
      · right; right
        exact ⟨hp2, by omega, hf, by rw [if_neg hf]⟩

/-! ## Induction along the recursion of `connect_server` -/

theorem connect_server_induct (x : env_t) (P Q : world_t → conn_t → Prop)
    (hstep : ∀ w c w2 c2, P w c → connect_attempt x w c = some (attempt_t.again w2 c2) → P w2 c2)
    (hdone : ∀ w c w2 c2, P w c → connect_attempt x w c = some (attempt_t.done w2 c2) → Q w2 c2)
    (fuel : Nat) (w : world_t) (c : conn_t) (r : world_t × conn_t)
    (hP : P w c) (hr : connect_server x fuel w c = some r) : Q r.1 r.2 := by
  induction fuel generalizing w c with
  | zero => simp [connect_server] at hr
  | succ fuel ih =>
    rw [connect_server_succ] at hr
    cases ha : connect_attempt x w c with
    | none => simp [ha] at hr
    | some a =>
      rw [ha] at hr
      cases a with
      | done w2 c2 =>
        simp only [Option.some_bind, attempt_next, Option.some.injEq] at hr
        subst hr
        exact hdone w c w2 c2 hP ha
      | again w2 c2 =>
        simp only [Option.some_bind, attempt_next] at hr
        exact ih w2 c2 (hstep w c w2 c2 hP ha) hr

theorem connect_server_total (x : env_t) (fuel : Nat) (w : world_t) (c : conn_t)
    (hn : 1 ≤ w.health.length) (hfuel : (MAX_TRY - c.server_tried).toNat < fuel) :
    ∃ r, connect_server x fuel w c = some r := by
  induction fuel generalizing w c with
  | zero => omega
  | succ fuel ih =>
    rw [connect_server_succ]
    obtain ⟨id, health, pos, tb, ev, ov, -, -, hlen, -, -, h | h | h | h | h⟩ :=
      connect_attempt_cases x w c hn
    · rw [h.2]; exact ⟨_, rfl⟩
    · rw [h.2.2]; exact ⟨_, rfl⟩
    · obtain ⟨-, -, -, ht, he⟩ := h
      rw [he]
      simp only [Option.some_bind, attempt_next]
      apply ih
      · simp only [List.length_set]; omega
      · simp only [MAX_TRY] at ht hfuel ⊢
        omega
    · rw [h.2.2.2.2]; exact ⟨_, rfl⟩
    · rw [h.2.2.2]; exact ⟨_, rfl⟩

theorem cs_frame_refl (w : world_t) (c : conn_t) : cs_frame w c w c := by
  simp only [cs_frame, le_refl, sub_self, true_and, and_true]
  exact fun h => le_of_lt h

theorem connect_attempt_frame (x : env_t) (w0 : world_t) (c0 : conn_t) (w : world_t) (c : conn_t)
    (a : attempt_t) (h0 : cs_frame w0 c0 w c) (hn : 1 ≤ w.health.length)
    (hlt : w0 = w ∧ c0 = c ∨ c.server_tried < MAX_TRY)
    (ha : connect_attempt x w c = some a) :
    match a with
    | attempt_t.done w2 c2 => cs_frame w0 c0 w2 c2 ∧ c0.server_tried < c2.server_tried
    | attempt_t.again w2 c2 =>
      cs_frame w0 c0 w2 c2 ∧ c2.server_tried < MAX_TRY ∧ 1 ≤ w2.health.length := by
  obtain ⟨h1, h2, h3, h4, h5, h6, h7, h8, h9, h10, h11, h12, h13, h14, h15, h16, h17, h18, h19⟩ := h0
  have hmax : c0.server_tried < MAX_TRY → c.server_tried + 1 ≤ MAX_TRY := by
    intro hc
    rcases hlt with ⟨-, rfl⟩ | hlt
    · simp only [MAX_TRY] at hc ⊢; omega
    · simp only [MAX_TRY] at hlt ⊢; omega
  obtain ⟨id, health, pos, tb, ev, ov, -, -, hlen, -, -, h | h | h | h | h⟩ :=
    connect_attempt_cases x w c hn
  · rw [h.2, Option.some.injEq] at ha
    subst ha
    simp only [cs_frame, h1, h2, h3, h4, h5, h6, h7, h8, h9, h10, h11, h12, hlen, true_and]
    refine ⟨⟨by omega, hmax, h15, by omega, h17, by omega, by omega⟩, by omega⟩
  · rw [h.2.2, Option.some.injEq] at ha
    subst ha
    simp only [cs_frame, h1, h2, h3, h4, h5, h6, h7, h8, h9, h10, h11, h12, hlen, true_and]
    refine ⟨⟨by omega, hmax, by omega, ?_, h17, by omega, by omega⟩, by omega⟩
    push_cast
    omega
  · rw [h.2.2.2.2, Option.some.injEq] at ha
    subst ha
    simp only [cs_frame, h1, h2, h3, h4, h5, h6, h7, h8, h9, h10, h11, h12, hlen, true_and,
      List.length_set, List.length_append, List.length_singleton]
    refine ⟨⟨by omega, hmax, by omega, ?_, by omega, ?_, h19⟩, h.2.2.2.1, by omega⟩
    · push_cast; omega
    · push_cast; omega
  · rw [h.2.2.2.2, Option.some.injEq] at ha
    subst ha
    simp only [cs_frame, h1, h2, h3, h4, h5, h6, h7, h8, h9, h10, h11, h12, hlen, true_and,
      List.length_set, List.length_append, List.length_singleton]
    refine ⟨⟨by omega, hmax, by omega, ?_, by omega, ?_, by omega⟩, by omega⟩
    · push_cast; omega
    · push_cast; omega
  · rw [h.2.2.2, Option.some.injEq] at ha
    subst ha
    simp only [cs_frame, h1, h2, h3, h4, h5, h6, h7, h8, h9, h10, h11, h12, hlen, true_and,
      List.length_append, List.length_singleton]
    refine ⟨⟨by omega, hmax, by omega, ?_, by omega, ?_, h19⟩, by omega⟩
    · push_cast; omega
    · push_cast; omega

theorem connect_server_frame (x : env_t) (fuel : Nat) (w : world_t) (c : conn_t)
    (r : world_t × conn_t) (hn : 1 ≤ w.health.length)
    (hr : connect_server x fuel w c = some r) :
    cs_frame w c r.1 r.2 ∧ c.server_tried < r.2.server_tried := by
  refine connect_server_induct x
    (fun w1 c1 => cs_frame w c w1 c1 ∧ 1 ≤ w1.health.length ∧
      (w = w1 ∧ c = c1 ∨ c1.server_tried < MAX_TRY))
    (fun w2 c2 => cs_frame w c w2 c2 ∧ c.server_tried < c2.server_tried)
    ?_ ?_ fuel w c r ⟨cs_frame_refl w c, hn, Or.inl ⟨rfl, rfl⟩⟩ hr
  · intro w1 c1 w2 c2 hP ha
    have := connect_attempt_frame x w c w1 c1 _ hP.1 hP.2.1 hP.2.2 ha
    exact ⟨this.1, this.2.2, Or.inr this.2.1⟩
  · intro w1 c1 w2 c2 hP ha
    exact connect_attempt_frame x w c w1 c1 _ hP.1 hP.2.1 hP.2.2 ha

/-! ## Partial writes to the remote socket -/

theorem sum_nonneg_of_pos (ns : List Int) (h : ∀ n ∈ ns, 1 ≤ n) : 0 ≤ ns.sum := by
  induction ns with
  | nil => simp
  | cons a l ih =>
    have h1 := h a (List.mem_cons_self _ _)
    have h2 := ih (fun n hn => h n (List.mem_cons_of_mem _ hn))
    simp only [List.sum_cons]
    omega

theorem eq_nil_of_sum_le_zero (ns : List Int) (h : ∀ n ∈ ns, 1 ≤ n) (hs : ns.sum ≤ 0) :
    ns = [] := by
  cases ns with
  | nil => rfl
  | cons a l =>
    have h1 := h a (List.mem_cons_self _ _)
    have h2 := sum_nonneg_of_pos l (fun n hn => h n (List.mem_cons_of_mem _ hn))
    simp only [List.sum_cons] at hs
    omega

theorem dispatch_remote_writable (x : env_t) (n errno : Int) (w : world_t) (c : conn_t)
    (hw : c.w_remote_write = some callback_t.remote_write_cb) (hfreed : c.freed = 0) :
    dispatch x (event_t.remote_writable n errno) (w, c) = some (remote_write_cb n errno w c) := by
  simp [dispatch, hfreed, hw]

theorem run_remote_writes (x : env_t) (errno : Int) (ns : List Int) (w : world_t) (c : conn_t)
    (hw : c.w_remote_write = some callback_t.remote_write_cb) (hfreed : c.freed = 0)
    (hoff : 0 ≤ c.tx_offset) (hpos : 0 < c.tx_bytes)
    (hns : ∀ n ∈ ns, 1 ≤ n) (hsum : ns.sum ≤ c.tx_bytes) :
    ∃ w2 c2, run x (ns.map (fun n => event_t.remote_writable n errno)) (w, c) = some (w2, c2) ∧
      w2.sent_remote = w.sent_remote ++ slice c.tx_buf c.tx_offset.toNat ns.sum.toNat ∧
      c2.tx_buf = c.tx_buf ∧ c2.freed = 0 ∧ w2.closed = w.closed ∧
      c.tx_offset ≤ c2.tx_offset ∧ c2.tx_offset ≤ c.tx_offset + ns.sum ∧
      (ns.sum < c.tx_bytes →
        c2.w_remote_write = some callback_t.remote_write_cb ∧
        c2.w_remote_read = c.w_remote_read ∧
        c2.tx_offset = c.tx_offset + ns.sum ∧ c2.tx_bytes = c.tx_bytes - ns.sum) ∧
      (ns.sum = c.tx_bytes → c2.w_remote_write = none ∧ c2.w_remote_read = true) := by
  induction ns generalizing w c with
  | nil =>
    refine ⟨w, c, rfl, ?_, rfl, hfreed, rfl, le_refl _, by simp, ?_, ?_⟩
    · simp [slice]
    · intro _
      simp [hw]
    · intro h
      simp at h
      omega
  | cons n rest ih =>
    have hn1 : 1 ≤ n := hns n (List.mem_cons_self _ _)
    have hrest : ∀ m ∈ rest, 1 ≤ m := fun m hm => hns m (List.mem_cons_of_mem _ hm)
    have hrs := sum_nonneg_of_pos rest hrest
    simp only [List.sum_cons] at hsum ⊢
    have hmin : min n c.tx_bytes = n := by omega
    rw [List.map_cons, run, dispatch_remote_writable x n errno w c hw hfreed]
    simp only [remote_write_cb, if_neg (show ¬ n < 0 by omega), hmin]
    by_cases hlt : n < c.tx_bytes
    · simp only [if_pos hlt]
      obtain ⟨w2, c2, hrun, hsent, hbuf, hfr, hcl, hmono, hub, hpart, hfull⟩ :=
        ih { w with sent_remote := w.sent_remote ++ slice c.tx_buf c.tx_offset.toNat n.toNat }
          { c with tx_offset := c.tx_offset + n, tx_bytes := c.tx_bytes - n }
          hw hfreed (by simp only; omega) (by simp only; omega) hrest (by simp only; omega)
      refine ⟨w2, c2, hrun, ?_, hbuf, hfr, hcl, ?_, ?_, ?_, ?_⟩
      · rw [hsent]
        simp only [List.append_assoc]
        congr 1
        rw [slice_split c.tx_buf c.tx_offset.toNat (n + rest.sum).toNat n.toNat rest.sum.toNat
          (by omega)]
        congr 2
        omega
      · simp only at hmono; omega
      · simp only at hub; omega
      · intro h
        have := hpart (by simp only; omega)
        simp only at this
        refine ⟨this.1, this.2.1, by omega, by omega⟩
      · intro h
        exact hfull (by simp only; omega)
    · have hnil : rest = [] := eq_nil_of_sum_le_zero rest hrest (by omega)
      subst hnil
      simp only [if_neg hlt, List.map_nil, run, List.sum_nil, add_zero]
      refine ⟨_, _, rfl, rfl, rfl, hfreed, rfl, le_refl _, ?_, ?_, ?_⟩
      · simp only; omega
      · intro h; omega
      · intro _; exact ⟨rfl, rfl⟩
theorem run_append (x : env_t) (es1 es2 : List event_t) (s : world_t × conn_t) :
    run x (es1 ++ es2) s = (run x es1 s).bind (run x es2) := by
  induction es1 generalizing s with
  | nil => rfl
  | cons e es ih =>
    simp only [List.cons_append, run]
    cases dispatch x e s with
    | none => rfl
    | some s2 => exact ih s2

theorem run_connected_writes (x : env_t) (e0 errno : Int) (p q : List Int) (w : world_t)
    (c : conn_t)
    (hw : c.w_remote_write = some callback_t.connect_cb) (hfreed : c.freed = 0)
    (hpos : 0 < c.tx_bytes)
    (hns : ∀ n ∈ p ++ q, 1 ≤ n) (hsum : (p ++ q).sum ≤ c.tx_bytes) :
    ∃ w1 c1 w2 c2,
      run x (event_t.connect_ready 0 e0 :: p.map (fun n => event_t.remote_writable n errno))
        (w, c) = some (w1, c1) ∧
      run x (event_t.connect_ready 0 e0 :: (p ++ q).map (fun n => event_t.remote_writable n errno))
        (w, c) = some (w2, c2) ∧
      w1.sent_remote = w.sent_remote ++ slice c.tx_buf 0 p.sum.toNat ∧
      w2.sent_remote = w.sent_remote ++ slice c.tx_buf 0 (p ++ q).sum.toNat ∧
      c1.tx_offset ≤ c2.tx_offset ∧
      (q ≠ [] → c1.w_remote_write = some callback_t.remote_write_cb ∧
        c1.w_remote_read = c.w_remote_read ∧ c1.tx_offset = p.sum ∧
        c1.tx_bytes = c.tx_bytes - p.sum) ∧
      ((p ++ q).sum < c.tx_bytes → c2.w_remote_write = some callback_t.remote_write_cb ∧
        c2.w_remote_read = c.w_remote_read ∧ c2.tx_offset = (p ++ q).sum ∧
        c2.tx_bytes = c.tx_bytes - (p ++ q).sum) ∧
      ((p ++ q).sum = c.tx_bytes → c2.w_remote_write = none ∧ c2.w_remote_read = true) := by
  have hp : ∀ n ∈ p, 1 ≤ n := fun n hn => hns n (List.mem_append_left _ hn)
  have hq : ∀ n ∈ q, 1 ≤ n := fun n hn => hns n (List.mem_append_right _ hn)
  have hps := sum_nonneg_of_pos p hp
  have hqs := sum_nonneg_of_pos q hq
  rw [List.sum_append] at hsum
  have hd : dispatch x (event_t.connect_ready 0 e0) (w, c) =
      some (w, { c with w_remote_write := some callback_t.remote_write_cb, tx_offset := 0 }) := by
    simp [dispatch, hfreed, hw, connect_cb]
  obtain ⟨w1, c1, hrun1, hsent1, hbuf1, hfr1, -, hlo1, hhi1, hpart1, hfull1⟩ :=
    run_remote_writes x errno p w
      { c with w_remote_write := some callback_t.remote_write_cb, tx_offset := 0 }
      rfl hfreed (le_refl _) hpos hp (by simp only; omega)
  simp only [Int.toNat_zero, zero_add] at hsent1 hlo1 hhi1 hpart1 hfull1 hbuf1
  by_cases hqn : q = []
  · subst hqn
    simp only [List.append_nil] at hsum ⊢
    refine ⟨w1, c1, w1, c1, ?_, ?_, hsent1, hsent1, le_refl _, fun h => absurd rfl h, ?_, ?_⟩
    · rw [run, hd]; exact hrun1
    · rw [run, hd]; exact hrun1
    · intro h
      exact hpart1 h
    · intro h
      exact hfull1 h
  · have hq1 : 1 ≤ q.sum := by
      cases q with
      | nil => exact absurd rfl hqn
      | cons a l =>
        have h1 := hq a (List.mem_cons_self _ _)
        have h2 := sum_nonneg_of_pos l (fun n hn => hq n (List.mem_cons_of_mem _ hn))
        simp only [List.sum_cons]
        omega
    have hp1 := hpart1 (by omega)
    obtain ⟨w2, c2, hrun2, hsent2, hbuf2, hfr2, -, hlo2, hhi2, hpart2, hfull2⟩ :=
      run_remote_writes x errno q w1 c1 hp1.1 hfr1 (by omega) (by omega) hq (by omega)
    refine ⟨w1, c1, w2, c2, ?_, ?_, hsent1, ?_, hlo2, fun _ => hp1, ?_, ?_⟩
    · rw [run, hd]; exact hrun1
    · rw [run, hd]
      simp only [List.map_append, run_append, hrun1, Option.some_bind]
      exact hrun2
    · rw [hsent2, hsent1, hbuf1, hp1.2.2.1, List.append_assoc, List.sum_append]
      congr 1
      rw [slice_split c.tx_buf 0 (p.sum + q.sum).toNat p.sum.toNat q.sum.toNat (by omega)]
      simp
    · intro h
      rw [List.sum_append] at h ⊢
      have := hpart2 (by omega)
      exact ⟨this.1, by rw [this.2.1, hp1.2.1], by omega, by omega⟩
    · intro h
      rw [List.sum_append] at h
      exact hfull2 (by omega)

/-! ## The attempt counter along a run -/

theorem remote_write_cb_tried (n errno : Int) (w : world_t) (c : conn_t) :
    tried_frame (w, c) (remote_write_cb n errno w c) := by
  unfold remote_write_cb tried_frame
  split_ifs <;> simp

theorem remote_read_cb_tried (x : env_t) (data : Option (List Nat)) (n errno : Int)
    (timer_ok : Bool) (w : world_t) (c : conn_t) :
    tried_frame (w, c) (remote_read_cb x data n errno timer_ok w c) := by
  unfold remote_read_cb tried_frame
  simp only []
  split_ifs <;> simp

theorem local_write_cb_tried (n errno : Int) (timer_ok : Bool) (w : world_t) (c : conn_t) :
    tried_frame (w, c) (local_write_cb n errno timer_ok w c) := by
  unfold local_write_cb tried_frame
  split_ifs <;> simp

theorem closewait_cb_tried (w : world_t) (c : conn_t) :
    tried_frame (w, c) (closewait_cb w c) := by
  simp [closewait_cb, tried_frame]

theorem connect_cb_tried (x : env_t) (err errno : Int) (n0 l0 : Nat) (w : world_t) (c : conn_t)
    (h : tried_inv n0 l0 (w, c)) :
    ∃ s, connect_cb x err errno w c = some s ∧ tried_inv n0 l0 s := by
  obtain ⟨h1, h2, h3, h4, h5, h6⟩ := h
  simp only at h1 h2 h3 h4 h5 h6
  unfold connect_cb
  simp only []
  by_cases he : err = 0
  · rw [if_pos he]
    exact ⟨_, rfl, h1, h2, h3, h4, h5, h6⟩
  · rw [if_neg he]
    by_cases hp : errno ≠ EINPROGRESS
    · rw [if_pos hp]
      by_cases ht : c.server_tried < MAX_TRY
      · rw [if_pos ht]
        obtain ⟨r, hr⟩ := connect_server_total x
          (tries_left { c with w_remote_write := none })
          { w with health := w.health.set c.server_id (-10),
                   closed := w.closed ++ [c.sock_remote] }
          { c with w_remote_write := none }
          (by simpa using h6) (by simp [tries_left])
        obtain ⟨hf, hlt⟩ := connect_server_frame x _ _ _ r (by simpa using h6) hr
        refine ⟨r, hr, ?_⟩
        obtain ⟨-, -, -, -, f5, -, -, -, -, -, -, f12, f13, f14, f15, f16, f17, f18, -⟩ := hf
        simp only [List.length_set] at f5 f12 f13 f14 f15 f16 f17 f18 hlt
        refine ⟨f14 ht, by omega, by rw [f5]; exact h3, by omega, by omega, by omega⟩
      · rw [if_neg ht]
        exact ⟨_, rfl, h1, h2, h3, h4, h5, by simpa using h6⟩
    · rw [if_neg hp]
      exact ⟨_, rfl, h1, h2, h3, h4, h5, h6⟩

theorem tried_inv_of_frame (n0 l0 : Nat) (s s2 : world_t × conn_t)
    (h : tried_inv n0 l0 s) (hf : tried_frame s s2) : tried_inv n0 l0 s2 := by
  obtain ⟨h1, h2, h3, h4, h5, h6⟩ := h
  obtain ⟨f1, f2, f3, f4, f5⟩ := hf
  exact ⟨by rw [f1]; exact h1, by rw [f1]; exact h2, by rw [f4]; exact h3,
    by rw [f1, f2]; exact h4, by rw [f1, f3]; exact h5, by rw [f5]; exact h6⟩

theorem dispatch_tried (x : env_t) (e : event_t) (n0 l0 : Nat) (s : world_t × conn_t)
    (h : tried_inv n0 l0 s) : ∃ s2, dispatch x e s = some s2 ∧ tried_inv n0 l0 s2 := by
  unfold dispatch
  by_cases hfr : s.2.freed ≠ 0
  · rw [if_pos hfr]
    exact ⟨s, rfl, h⟩
  · rw [if_neg hfr]
    cases e with
    | connect_ready err errno =>
      simp only []
      split_ifs
      · exact connect_cb_tried x err errno n0 l0 s.1 s.2 h
      · exact ⟨s, rfl, h⟩
    | remote_writable n errno =>
      simp only []
      split_ifs
      · exact ⟨_, rfl, tried_inv_of_frame n0 l0 s _ h (remote_write_cb_tried n errno s.1 s.2)⟩
      · exact ⟨s, rfl, h⟩
    | remote_readable data n errno timer_ok =>
      simp only []
      split_ifs
      · exact ⟨_, rfl, tried_inv_of_frame n0 l0 s _ h
          (remote_read_cb_tried x data n errno timer_ok s.1 s.2)⟩
      · exact ⟨s, rfl, h⟩
    | local_writable n errno timer_ok =>
      simp only []
      split_ifs
      · exact ⟨_, rfl, tried_inv_of_frame n0 l0 s _ h
          (local_write_cb_tried n errno timer_ok s.1 s.2)⟩
      · exact ⟨s, rfl, h⟩
    | local_readable data =>
      simp only []
      have := h.2.2.1
      rw [if_neg (by simp [this])]
      exact ⟨s, rfl, h⟩
    | timeout =>
      simp only []
      split_ifs
      · exact ⟨_, rfl, tried_inv_of_frame n0 l0 s _ h (closewait_cb_tried s.1 s.2)⟩
      · exact ⟨s, rfl, h⟩

theorem run_tried (x : env_t) (events : List event_t) (n0 l0 : Nat) (s : world_t × conn_t)
    (h : tried_inv n0 l0 s) : ∃ s2, run x events s = some s2 ∧ tried_inv n0 l0 s2 := by
  induction events generalizing s with
  | nil => exact ⟨s, rfl, h⟩
  | cons e es ih =>
    obtain ⟨s1, h1, hi⟩ := dispatch_tried x e n0 l0 s h
    obtain ⟨s2, h2, hi2⟩ := ih s1 hi
    exact ⟨s2, by rw [run, h1]; exact h2, hi2⟩

theorem connect_server_tried (x : env_t) (w : world_t) (c : conn_t)
    (hn : 1 ≤ w.health.length) (ht : c.server_tried = 0) (hr : c.w_local_read = false) :
    ∃ s, connect_server x (tries_left c) w c = some s ∧
      tried_inv w.n_socket w.connects.length s := by
  obtain ⟨r, hr2⟩ := connect_server_total x (tries_left c) w c hn (by simp [tries_left])
  obtain ⟨hf, hlt⟩ := connect_server_frame x _ _ _ r hn hr2
  refine ⟨r, hr2, ?_⟩
  obtain ⟨-, -, -, -, f5, -, -, -, -, -, -, f12, f13, f14, f15, f16, f17, f18, -⟩ := hf
  rw [ht] at f13 f14 f16 f18 hlt
  exact ⟨f14 (by decide), by omega, by rw [f5]; exact hr, by omega, by omega, by omega⟩

/-! ## A query whose every attempt is refused -/

theorem health_ok_set (h : List Int) (id : Nat) (v : Int) (hv : -10 ≤ v ∧ v ≤ 0)
    (hh : health_ok h) : health_ok (h.set id v) := by
  intro u hu
  rcases List.mem_or_eq_of_mem_set hu with hm | rfl
  · exact hh u hm
  · exact hv

theorem getD_mem_bounds (h : List Int) (id : Nat) (hh : health_ok h) :
    -10 ≤ h.getD id 0 ∧ h.getD id 0 ≤ 0 := by
  by_cases hid : id < h.length
  · have : h.getD id 0 = h[id] := by simp [List.getD_eq_getElem?_getD, hid]
    rw [this]
    exact hh _ (List.getElem_mem hid)
  · have : h.getD id 0 = 0 := by
      simp [List.getD_eq_getElem?_getD, List.getElem?_eq_none (by omega : h.length ≤ id)]
    rw [this]
    omega

theorem select_loop_health_ok (rnd : Nat → Nat) (fuel : Nat) (health : List Int) (pos : Nat)
    (r : Nat × List Int × Nat) (hh : health_ok health)
    (hr : select_loop rnd fuel health pos = some r) : health_ok r.2.1 := by
  induction fuel generalizing health pos with
  | zero => simp [select_loop] at hr
  | succ fuel ih =>
    by_cases h : 0 ≤ health.getD (rnd pos % 256 % health.length) 0
    · simp only [select_loop, if_pos h, Option.some.injEq] at hr
      subst hr
      exact hh
    · simp only [select_loop, if_neg h] at hr
      have hb := getD_mem_bounds health (rnd pos % 256 % health.length) hh
      exact ih _ _ (health_ok_set _ _ _ (by omega) hh) hr

theorem getD_set_self (h : List Int) (id : Nat) (v : Int) (hid : id < h.length) :
    (h.set id v).getD id 0 = v := by
  simp [List.getD_eq_getElem?_getD, List.getElem?_set, hid]

theorem getD_set_other (h : List Int) (id j : Nat) (v : Int) (hj : j ≠ id) :
    (h.set id v).getD j 0 = h.getD j 0 := by
  simp [List.getD_eq_getElem?_getD, List.getElem?_set, Ne.symm hj]

theorem connect_attempt_down (x : env_t) (w0 : world_t) (c0 : conn_t) (w : world_t)
    (c : conn_t) (a : attempt_t) (hx : refusing x) (hp : parses x c0)
    (hf : down_frame w0 c0 (w, c)) (hn : 1 ≤ w.health.length)
    (hw : c.w_remote_write = none) (hfr : c.freed = 0)
    (ht0 : 0 ≤ c.server_tried) (ht : c.server_tried < MAX_TRY)
    (ha : connect_attempt x w c = some a) :
    match a with
    | attempt_t.done w2 c2 => down_pending w0 c0 (w2, c2) ∨ down_done w0 c0 (w2, c2)
    | attempt_t.again w2 c2 =>
      down_frame w0 c0 (w2, c2) ∧ 1 ≤ w2.health.length ∧ c2.w_remote_write = none ∧
        c2.freed = 0 ∧ 0 ≤ c2.server_tried ∧ c2.server_tried < MAX_TRY := by
  obtain ⟨f1, f2, f3, f4, f5, f6, f7, f8, f9⟩ := hf
  simp only at f1 f2 f3 f4 f5 f6 f7 f8 f9
  have hpc : x.ns_initparse (c.rx_buf.drop 2) (c.rx_bytes - 2) = true := by
    rw [f4, f5]; exact hp
  obtain ⟨id, health, pos, tb, ev, ov, hsel, hid, hlen, -, -, h | h | h | h | h⟩ :=
    connect_attempt_cases x w c hn
  · rw [hpc] at h
    exact absurd h.1 (by simp)
  · have := hx.1 w.n_socket
    omega
  · have hok : health_ok health := select_loop_health_ok _ _ _ _ _ f3 hsel
    rw [h.2.2.2.2, Option.some.injEq] at ha
    subst ha
    simp only [down_frame, f1, f2, f4, f5, f6, f7, f8, f9, hlen, hw, hfr, List.length_set,
      true_and]
    exact ⟨⟨health_ok_set _ _ _ (by omega) hok, trivial⟩, by omega, by omega, h.2.2.2.1⟩
  · have hok : health_ok health := select_loop_health_ok _ _ _ _ _ f3 hsel
    rw [h.2.2.2.2, Option.some.injEq] at ha
    subst ha
    right
    simp only [down_done, down_frame, f1, f2, f4, f5, f6, f7, f8, f9, hlen, hw, hfr,
      List.length_set, true_and]
    have h4 := h.2.2.2.1
    simp only [MAX_TRY] at h4 ht ⊢
    exact ⟨⟨health_ok_set _ _ _ (by omega) hok, trivial⟩, by omega,
      getD_set_self _ _ _ (by omega)⟩
  · have hok : health_ok health := select_loop_health_ok _ _ _ _ _ f3 hsel
    rw [h.2.2.2, Option.some.injEq] at ha
    subst ha
    left
    simp only [down_pending, down_frame, f1, f2, f4, f5, f6, f7, f8, f9, hlen, hfr, true_and]
    simp only [MAX_TRY] at ht ⊢
    exact ⟨⟨hok, trivial⟩, by omega, by omega, by omega⟩

theorem connect_server_down (x : env_t) (fuel : Nat) (w0 : world_t) (c0 : conn_t) (w : world_t)
    (c : conn_t) (r : world_t × conn_t) (hx : refusing x) (hp : parses x c0)
    (hf : down_frame w0 c0 (w, c)) (hn : 1 ≤ w.health.length)
    (hw : c.w_remote_write = none) (hfr : c.freed = 0)
    (ht0 : 0 ≤ c.server_tried) (ht : c.server_tried < MAX_TRY)
    (hr : connect_server x fuel w c = some r) :
    down_pending w0 c0 r ∨ down_done w0 c0 r := by
  refine connect_server_induct x
    (fun w1 c1 => down_frame w0 c0 (w1, c1) ∧ 1 ≤ w1.health.length ∧ c1.w_remote_write = none ∧
      c1.freed = 0 ∧ 0 ≤ c1.server_tried ∧ c1.server_tried < MAX_TRY)
    (fun w2 c2 => down_pending w0 c0 (w2, c2) ∨ down_done w0 c0 (w2, c2))
    ?_ ?_ fuel w c r ⟨hf, hn, hw, hfr, ht0, ht⟩ hr
  · intro w1 c1 w2 c2 hP ha
    exact connect_attempt_down x w0 c0 w1 c1 _ hx hp hP.1 hP.2.1 hP.2.2.1 hP.2.2.2.1
      hP.2.2.2.2.1 hP.2.2.2.2.2 ha
  · intro w1 c1 w2 c2 hP ha
    exact connect_attempt_down x w0 c0 w1 c1 _ hx hp hP.1 hP.2.1 hP.2.2.1 hP.2.2.2.1
      hP.2.2.2.2.1 hP.2.2.2.2.2 ha
theorem connect_cb_down (x : env_t) (w0 : world_t) (c0 : conn_t) (s : world_t × conn_t)
    (err errno : Int) (hx : refusing x) (hp : parses x c0) (hs : down_pending w0 c0 s)
    (herr : err ≠ 0) (herrno : errno ≠ EINPROGRESS) :
    ∃ s2, connect_cb x err errno s.1 s.2 = some s2 ∧
      ((down_pending w0 c0 s2 ∧ s.2.server_tried < s2.2.server_tried) ∨ down_done w0 c0 s2) := by
  obtain ⟨w, c⟩ := s
  obtain ⟨hf, hw, hfr, ht1, ht4, hid⟩ := hs
  have hf2 := hf
  obtain ⟨f1, f2, f3, f4, f5, f6, f7, f8, f9⟩ := hf2
  simp only at hw hfr ht1 ht4 hid f1 f2 f3 f4 f5 f6 f7 f8 f9 ⊢
  have hn : 1 ≤ w.health.length := by omega
  unfold connect_cb
  simp only []
  rw [if_neg herr, if_pos herrno]
  by_cases ht : c.server_tried < MAX_TRY
  · rw [if_pos ht]
    obtain ⟨r, hr⟩ := connect_server_total x
      (tries_left { c with w_remote_write := none })
      { w with health := w.health.set c.server_id (-10),
               closed := w.closed ++ [c.sock_remote] }
      { c with w_remote_write := none }
      (by simpa using hn) (by simp [tries_left])
    have hlt := (connect_server_frame x (tries_left { c with w_remote_write := none })
      { w with health := w.health.set c.server_id (-10),
               closed := w.closed ++ [c.sock_remote] }
      { c with w_remote_write := none } r (by simpa using hn) hr).2
    have := connect_server_down x (tries_left { c with w_remote_write := none }) w0 c0
      { w with health := w.health.set c.server_id (-10),
               closed := w.closed ++ [c.sock_remote] }
      { c with w_remote_write := none } r hx hp
      (by
        simp only [down_frame, List.length_set]
        exact ⟨f1, f2, health_ok_set _ _ _ (by omega) f3, f4, f5, f6, f7, f8, f9⟩)
      (by simpa using hn) rfl hfr (by simp only; omega) ht hr
    refine ⟨r, hr, ?_⟩
    rcases this with h | h
    · exact Or.inl ⟨h, hlt⟩
    · exact Or.inr h
  · rw [if_neg ht]
    refine ⟨_, rfl, Or.inr ?_⟩
    simp only [down_done, down_frame, List.length_set]
    refine ⟨⟨f1, f2, health_ok_set _ _ _ (by omega) f3, f4, f5, f6, f7, f8, f9⟩, trivial,
      by omega, by omega, getD_set_self _ _ _ hid⟩

theorem run_freed (x : env_t) (events : List event_t) (s : world_t × conn_t)
    (h : s.2.freed ≠ 0) : run x events s = some s := by
  induction events with
  | nil => rfl
  | cons e es ih =>
    rw [run]
    have : dispatch x e s = some s := by
      unfold dispatch
      rw [if_pos h]
    rw [this]
    exact ih

theorem run_down (x : env_t) (w0 : world_t) (c0 : conn_t) (events : List event_t)
    (s : world_t × conn_t) (hx : refusing x) (hp : parses x c0)
    (hev : ∀ e ∈ events, failed_connect e)
    (hs : down_pending w0 c0 s ∨ down_done w0 c0 s)
    (hlen : 5 - s.2.server_tried ≤ events.length) :
    ∃ s2, run x events s = some s2 ∧ down_done w0 c0 s2 := by
  induction events generalizing s with
  | nil =>
    rcases hs with hs | hs
    · have := hs.2.2.2.2.1
      simp only [MAX_TRY, List.length_nil, Nat.cast_zero] at this hlen
      omega
    · exact ⟨s, rfl, hs⟩
  | cons e es ih =>
    rcases hs with hs | hs
    · obtain ⟨err, errno, rfl, herr, herrno⟩ := hev e (List.mem_cons_self _ _)
      obtain ⟨s1, h1, hs1⟩ := connect_cb_down x w0 c0 s err errno hx hp hs herr herrno
      have hd : dispatch x (event_t.connect_ready err errno) s = some s1 := by
        unfold dispatch
        rw [if_neg (by simp [hs.2.2.1])]
        simp only []
        rw [if_pos hs.2.1]
        exact h1
      simp only [List.length_cons, Nat.cast_add, Nat.cast_one] at hlen
      rcases hs1 with ⟨hp1, hlt⟩ | hd1
      · obtain ⟨s2, h2, hs2⟩ := ih s1 (fun e he => hev e (List.mem_cons_of_mem _ he))
          (Or.inl hp1) (by omega)
        exact ⟨s2, by rw [run, hd]; exact h2, hs2⟩
      · refine ⟨s1, ?_, hd1⟩
        rw [run, hd]
        exact run_freed x es s1 (by rw [hd1.2.2.1]; decide)
    · exact ⟨s, run_freed x _ s (by rw [hs.2.2.1]; decide), hs⟩

/-! ## The request after encryption -/

theorem length_slice (buf : List Nat) (off len : Nat) :
    (slice buf off len).length = min len (buf.length - off) := by
  simp [slice]

theorem length_slice_of_le (buf : List Nat) (off len : Nat) (h : off + len ≤ buf.length) :
    (slice buf off len).length = len := by
  rw [length_slice]
  omega

theorem tx_store_tx_buf (c : conn_t) (off : Nat) (src : List Nat) :
    (tx_store c off src).tx_buf = memcpy c.tx_buf off src := rfl

theorem stage_header_length (x : env_t) (w : world_t) (c : conn_t)
    (h : BUF_SIZE ≤ c.tx_buf.length) : BUF_SIZE ≤ (stage_header x w c).2.tx_buf.length := by
  have hB : BUF_SIZE = 8192 := rfl
  rw [stage_header_tx_buf]
  have l1 := le_length_memcpy c.tx_buf 512 (slice c.rx_buf 0 c.rx_bytes.toNat) 8192
    (by omega) (by omega)
  have l2 := le_length_memcpy _ 276 (rand_bytes x.rand w.rand_pos 236) 8192 (by omega) l1
  have l3 := le_length_memcpy _ 512 (x.key c.server_id) 8192 (by omega) l2
  have l4 := le_length_memcpy _ 0 (List.replicate 276 0) 8192 (by omega) l3
  have l5 := le_length_memcpy _ 0 (htonl_bytes MAGIC) 8192 (by omega) l4
  have l6 := le_length_memcpy _ 4 (cstr x.upstream_addr ++ [0]) 8192 (by omega) l5
  have l7 := le_length_memcpy _ 261 (cstr x.upstream_port ++ [0]) 8192 (by omega) l6
  rw [hB]
  exact l7

theorem stage_payload_tx_buf (x : env_t) (c : conn_t) :
    (stage_payload x c).tx_buf =
      memcpy (memcpy c.tx_buf 0 (x.io_encrypt (slice c.tx_buf 0 276) c.enc_evp).1)
        512 (slice c.rx_buf 0 c.rx_bytes.toNat) := rfl

theorem finish_request_tx_buf (x : env_t) (c : conn_t) :
    (finish_request x c).tx_buf =
      memcpy c.tx_buf 512 (x.io_encrypt (slice c.tx_buf 512 c.rx_bytes.toNat) c.enc_evp).1 :=
  rfl

theorem build_request_eq (x : env_t) (w : world_t) (c : conn_t) :
    (build_request x w c).2 = finish_request x (stage_payload x (stage_header x w c).2) := rfl

theorem stage_header_frame (x : env_t) (w : world_t) (c : conn_t) :
    ∃ tb ev ov, stage_header x w c =
      ({ w with rand_pos := w.rand_pos + 236 },
       { c with tx_buf := tb, enc_evp := ev, overrun := ov }) := by
  simp only [stage_header, tx_store]
  exact ⟨_, _, _, rfl⟩

theorem stage_payload_frame (x : env_t) (c : conn_t) :
    ∃ tb ev ov, stage_payload x c = { c with tx_buf := tb, enc_evp := ev, overrun := ov } := by
  simp only [stage_payload, tx_store]
  exact ⟨_, _, _, rfl⟩

theorem stage_header_rx (x : env_t) (w : world_t) (c : conn_t) :
    (stage_header x w c).2.rx_bytes = c.rx_bytes ∧ (stage_header x w c).2.rx_buf = c.rx_buf := by
  obtain ⟨tb, ev, ov, h⟩ := stage_header_frame x w c
  rw [h]
  exact ⟨rfl, rfl⟩

theorem stage_payload_rx (x : env_t) (c : conn_t) :
    (stage_payload x c).rx_bytes = c.rx_bytes ∧ (stage_payload x c).rx_buf = c.rx_buf := by
  obtain ⟨tb, ev, ov, h⟩ := stage_payload_frame x c
  rw [h]
  exact ⟨rfl, rfl⟩

theorem stage_payload_length (x : env_t) (c : conn_t) (h : BUF_SIZE ≤ c.tx_buf.length) :
    BUF_SIZE ≤ (stage_payload x c).tx_buf.length := by
  have hB : BUF_SIZE = 8192 := rfl
  rw [stage_payload_tx_buf]
  have l1 := le_length_memcpy c.tx_buf 0 (x.io_encrypt (slice c.tx_buf 0 276) c.enc_evp).1 8192
    (by omega) (by omega)
  have l2 := le_length_memcpy _ 512 (slice c.rx_buf 0 c.rx_bytes.toNat) 8192 (by omega) l1
  rw [hB]
  exact l2

theorem build_request_length (x : env_t) (w : world_t) (c : conn_t)
    (h : BUF_SIZE ≤ c.tx_buf.length) : BUF_SIZE ≤ (build_request x w c).2.tx_buf.length := by
  have hB : BUF_SIZE = 8192 := rfl
  have l1 := stage_payload_length x (stage_header x w c).2 (stage_header_length x w c h)
  rw [build_request_eq, finish_request_tx_buf]
  rw [hB] at l1 ⊢
  exact le_length_memcpy _ 512 _ 8192 (by omega) l1

theorem stage_payload_plain (x : env_t) (c : conn_t) (n : Nat)
    (h : BUF_SIZE ≤ c.tx_buf.length) (hn : c.rx_bytes.toNat = n) (hrx : n ≤ c.rx_buf.length) :
    slice (stage_payload x c).tx_buf 512 n = slice c.rx_buf 0 n := by
  have hB : BUF_SIZE = 8192 := rfl
  rw [stage_payload_tx_buf, hn]
  have l1 := le_length_memcpy c.tx_buf 0 (x.io_encrypt (slice c.tx_buf 0 276) c.enc_evp).1 512
    (by omega) (by omega)
  exact slice_memcpy_same _ _ _ _ l1 (length_slice_of_le _ _ _ (by omega)).symm

theorem build_request_cipher (x : env_t) (w : world_t) (c : conn_t) (n : Nat)
    (h : BUF_SIZE ≤ c.tx_buf.length) (hn : c.rx_bytes.toNat = n) (hrx : n ≤ c.rx_buf.length)
    (henc : ∀ l e, (x.io_encrypt l e).1.length = l.length) :
    slice (build_request x w c).2.tx_buf 0 276 =
      (x.io_encrypt (slice (stage_header x w c).2.tx_buf 0 276)
        (stage_header x w c).2.enc_evp).1 ∧
    slice (build_request x w c).2.tx_buf 276 236 = slice (stage_header x w c).2.tx_buf 276 236 ∧
    slice (build_request x w c).2.tx_buf 512 n =
      (x.io_encrypt (slice c.rx_buf 0 n) (stage_payload x (stage_header x w c).2).enc_evp).1 := by
  have hB : BUF_SIZE = 8192 := rfl
  have lh := stage_header_length x w c h
  have hhr := stage_header_rx x w c
  have hpr := stage_payload_rx x (stage_header x w c).2
  have hpl := stage_payload_plain x (stage_header x w c).2 n lh (by rw [hhr.1]; exact hn)
    (by rw [hhr.2]; exact hrx)
  rw [hhr.2] at hpl
  rw [build_request_eq, finish_request_tx_buf, hpr.1, hhr.1, hn, hpl]
  generalize hE2 : (x.io_encrypt (slice c.rx_buf 0 n)
    (stage_payload x (stage_header x w c).2).enc_evp).1 = E2
  have hE2l : E2.length = n := by
    rw [← hE2, henc, length_slice_of_le _ _ _ (by omega)]
  rw [stage_payload_tx_buf]
  generalize hE : (x.io_encrypt (slice (stage_header x w c).2.tx_buf 0 276)
    (stage_header x w c).2.enc_evp).1 = E
  have hEl : E.length = 276 := by
    rw [← hE, henc, length_slice_of_le _ _ _ (by omega)]
  generalize hT : (stage_header x w c).2.tx_buf = T at lh ⊢
  generalize hP : slice (stage_header x w c).2.rx_buf 0 (stage_header x w c).2.rx_bytes.toNat = P
  have l1 : 8192 ≤ (memcpy T 0 E).length := le_length_memcpy _ _ _ _ (by omega) (by omega)
  have l2 : 8192 ≤ (memcpy (memcpy T 0 E) 512 P).length :=
    le_length_memcpy _ _ _ _ (by omega) l1
  refine ⟨?_, ?_, ?_⟩
  · rw [slice_memcpy_before _ _ _ _ _ (by omega) (by omega),
      slice_memcpy_before _ _ _ _ _ (by omega) (by omega),
      slice_memcpy_same _ _ _ _ (by omega) hEl.symm]
  · rw [slice_memcpy_before _ _ _ _ _ (by omega) (by omega),
      slice_memcpy_before _ _ _ _ _ (by omega) (by omega),
      slice_memcpy_after _ _ _ _ _ (by omega) (by omega)]
  · rw [slice_memcpy_same _ _ _ _ (by omega) hE2l.symm]

theorem stage_header_overrun (x : env_t) (w : world_t) (c : conn_t)
    (h : BUF_SIZE < 512 + (slice c.rx_buf 0 c.rx_bytes.toNat).length) :
    (stage_header x w c).2.overrun = true := by
  simp only [stage_header, tx_store, decide_eq_true h, Bool.or_true, Bool.true_or]

theorem stage_payload_overrun (x : env_t) (c : conn_t) (h : c.overrun = true) :
    (stage_payload x c).overrun = true := by
  simp only [stage_payload, tx_store, h, Bool.or_true, Bool.true_or]

theorem finish_request_overrun (x : env_t) (c : conn_t) (h : c.overrun = true) :
    (finish_request x c).overrun = true := by
  simp only [finish_request, tx_store, h, Bool.or_true, Bool.true_or]

theorem build_request_overrun (x : env_t) (w : world_t) (c : conn_t)
    (h : BUF_SIZE < 512 + (slice c.rx_buf 0 c.rx_bytes.toNat).length) :
    (build_request x w c).2.overrun = true := by
  rw [build_request_eq]
  exact finish_request_overrun x _ (stage_payload_overrun x _ (stage_header_overrun x w c h))

theorem connect_attempt_built (x : env_t) (c0 : conn_t) (w : world_t) (c : conn_t)
    (a : attempt_t) (hn : 1 ≤ w.health.length)
    (hrb : c.rx_buf = c0.rx_buf) (hrn : c.rx_bytes = c0.rx_bytes)
    (hbuf : BUF_SIZE ≤ c.tx_buf.length)
    (hp : x.ns_initparse (c0.rx_buf.drop 2) (c0.rx_bytes - 2) = true)
    (ha : connect_attempt x w c = some a) :
    (∃ w1 c1, holds_request x c0 w1 c1 (attempt_conn a)) ∧
      BUF_SIZE ≤ (attempt_conn a).tx_buf.length ∧ 1 ≤ (attempt_world a).health.length := by
  have hpc : x.ns_initparse (c.rx_buf.drop 2) (c.rx_bytes - 2) = true := by
    rw [hrb, hrn]; exact hp
  obtain ⟨id, health, pos, tb, ev, ov, -, -, hlen, -, ⟨hb1, hb2, hb3⟩, h | h | h | h | h⟩ :=
    connect_attempt_cases x w c hn
  · rw [hpc] at h
    exact absurd h.1 (by simp)
  · rw [h.2.2, Option.some.injEq] at ha
    subst ha
    refine ⟨⟨{ w with health := health, rand_pos := pos },
      { c with server_id := id, server_tried := c.server_tried + 1 },
      hrb, hrn, hbuf, rfl, hb1, hb2, hb3, by simp only [attempt_conn]; rw [hrn], hrb, hrn⟩,
      ?_, ?_⟩
    · simp only [attempt_conn]
      rw [hb1]
      exact build_request_length x _ _ hbuf
    · simp only [attempt_world]; omega
  · rw [h.2.2.2.2, Option.some.injEq] at ha
    subst ha
    refine ⟨⟨{ w with health := health, rand_pos := pos },
      { c with server_id := id, server_tried := c.server_tried + 1 },
      hrb, hrn, hbuf, rfl, hb1, hb2, hb3, by simp only [attempt_conn]; rw [hrn], hrb, hrn⟩,
      ?_, ?_⟩
    · simp only [attempt_conn]
      rw [hb1]
      exact build_request_length x _ _ hbuf
    · simp only [attempt_world, List.length_set]; omega
  · rw [h.2.2.2.2, Option.some.injEq] at ha
    subst ha
    refine ⟨⟨{ w with health := health, rand_pos := pos },
      { c with server_id := id, server_tried := c.server_tried + 1 },
      hrb, hrn, hbuf, rfl, hb1, hb2, hb3, by simp only [attempt_conn]; rw [hrn], hrb, hrn⟩,
      ?_, ?_⟩
    · simp only [attempt_conn]
      rw [hb1]
      exact build_request_length x _ _ hbuf
    · simp only [attempt_world, List.length_set]; omega
  · rw [h.2.2.2, Option.some.injEq] at ha
    subst ha
    refine ⟨⟨{ w with health := health, rand_pos := pos },
      { c with server_id := id, server_tried := c.server_tried + 1 },
      hrb, hrn, hbuf, rfl, hb1, hb2, hb3, by simp only [attempt_conn]; rw [hrn], hrb, hrn⟩,
      ?_, ?_⟩
    · simp only [attempt_conn]
      rw [hb1]
      exact build_request_length x _ _ hbuf
    · simp only [attempt_world]; omega

theorem connect_server_built (x : env_t) (fuel : Nat) (w : world_t) (c : conn_t)
    (r : world_t × conn_t) (hn : 1 ≤ w.health.length) (hbuf : BUF_SIZE ≤ c.tx_buf.length)
    (hp : x.ns_initparse (c.rx_buf.drop 2) (c.rx_bytes - 2) = true)
    (hr : connect_server x fuel w c = some r) :
    ∃ w1 c1, holds_request x c w1 c1 r.2 := by
  refine connect_server_induct x
    (fun w1 c1 => c1.rx_buf = c.rx_buf ∧ c1.rx_bytes = c.rx_bytes ∧
      BUF_SIZE ≤ c1.tx_buf.length ∧ 1 ≤ w1.health.length)
    (fun _ c2 => ∃ w1 c1, holds_request x c w1 c1 c2)
    ?_ ?_ fuel w c r ⟨rfl, rfl, hbuf, hn⟩ hr
  · intro w1 c1 w2 c2 hP ha
    have := connect_attempt_built x c w1 c1 _ hP.2.2.2 hP.1 hP.2.1 hP.2.2.1 hp ha
    obtain ⟨⟨w3, c3, h3⟩, hl, hh⟩ := this
    exact ⟨h3.2.2.2.2.2.2.2.2.1, h3.2.2.2.2.2.2.2.2.2, hl, hh⟩
  · intro w1 c1 w2 c2 hP ha
    exact (connect_attempt_built x c w1 c1 _ hP.2.2.2 hP.1 hP.2.1 hP.2.2.1 hp ha).1

theorem tx_store_overrun_eq (c : conn_t) (off : Nat) (src : List Nat)
    (h : off + src.length ≤ BUF_SIZE) : (tx_store c off src).overrun = c.overrun := by
  have : decide (BUF_SIZE < off + src.length) = false := by
    simp only [decide_eq_false_iff_not, not_lt]
    exact h
  simp only [tx_store, this, Bool.or_false]

theorem stage_header_no_overrun (x : env_t) (w : world_t) (c : conn_t)
    (hpay : 512 + c.rx_bytes.toNat ≤ BUF_SIZE)
    (hkey : (x.key c.server_id).length ≤ 256)
    (hhost : (cstr x.upstream_addr).length ≤ 256)
    (hport : (cstr x.upstream_port).length ≤ 14) :
    (stage_header x w c).2.overrun = c.overrun := by
  have hB : BUF_SIZE = 8192 := rfl
  have hs : (slice c.rx_buf 0 c.rx_bytes.toNat).length ≤ c.rx_bytes.toNat := by
    rw [length_slice]
    omega
  unfold stage_header
  simp only []
  rw [tx_store_overrun_eq _ 261 _ (by rw [List.length_append, List.length_singleton]; omega),
    tx_store_overrun_eq _ 4 _ (by rw [List.length_append, List.length_singleton]; omega),
    tx_store_overrun_eq _ 0 _ (by simp [htonl_bytes, BUF_SIZE]),
    tx_store_overrun_eq _ 0 _ (by rw [List.length_replicate]; omega)]
  simp only []
  rw [tx_store_overrun_eq _ (276 + 236) _ (by
      have : (tx_store c 512 (slice c.rx_buf 0 c.rx_bytes.toNat)).server_id = c.server_id := rfl
      have : (tx_store (tx_store c 512 (slice c.rx_buf 0 c.rx_bytes.toNat)) 276
        (rand_bytes x.rand w.rand_pos 236)).server_id = c.server_id := rfl
      rw [this]
      omega),
    tx_store_overrun_eq _ 276 _ (by rw [length_rand_bytes]; omega),
    tx_store_overrun_eq _ 512 _ (by omega)]

theorem stage_payload_no_overrun (x : env_t) (c : conn_t)
    (hpay : 512 + c.rx_bytes.toNat ≤ BUF_SIZE)
    (henc : ∀ l e, (x.io_encrypt l e).1.length = l.length) :
    (stage_payload x c).overrun = c.overrun := by
  have hB : BUF_SIZE = 8192 := rfl
  have hs : (slice c.rx_buf 0 c.rx_bytes.toNat).length ≤ c.rx_bytes.toNat := by
    rw [length_slice]
    omega
  have hs3 : (slice c.tx_buf 0 276).length ≤ 276 := by
    rw [length_slice]
    omega
  unfold stage_payload
  simp only []
  rw [tx_store_overrun_eq _ 512 _ (by
    show 512 + (slice c.rx_buf 0 c.rx_bytes.toNat).length ≤ BUF_SIZE
    omega)]
  simp only []
  rw [tx_store_overrun_eq _ 0 _ (by rw [henc]; omega)]

theorem finish_request_no_overrun (x : env_t) (c : conn_t)
    (hpay : 512 + c.rx_bytes.toNat ≤ BUF_SIZE)
    (henc : ∀ l e, (x.io_encrypt l e).1.length = l.length) :
    (finish_request x c).overrun = c.overrun := by
  have hB : BUF_SIZE = 8192 := rfl
  have hs : (slice c.tx_buf 512 c.rx_bytes.toNat).length ≤ c.rx_bytes.toNat := by
    rw [length_slice]
    omega
  unfold finish_request
  simp only []
  rw [tx_store_overrun_eq _ 512 _ (by rw [henc]; omega)]

theorem build_request_no_overrun (x : env_t) (w : world_t) (c : conn_t)
    (hpay : 512 + c.rx_bytes.toNat ≤ BUF_SIZE)
    (hkey : (x.key c.server_id).length ≤ 256)
    (hhost : (cstr x.upstream_addr).length ≤ 256)
    (hport : (cstr x.upstream_port).length ≤ 14)
    (henc : ∀ l e, (x.io_encrypt l e).1.length = l.length) :
    (build_request x w c).2.overrun = c.overrun := by
  rw [build_request_eq, finish_request_no_overrun x _ _ henc,
    stage_payload_no_overrun x _ _ henc, stage_header_no_overrun x w c hpay hkey hhost hport]
  · rw [(stage_header_rx x w c).1]; exact hpay
  · rw [(stage_payload_rx x _).1, (stage_header_rx x w c).1]; exact hpay
theorem connect_server_no_overrun (x : env_t) (fuel : Nat) (w : world_t) (c : conn_t)
    (r : world_t × conn_t) (hn : 1 ≤ w.health.length) (hov : c.overrun = false)
    (hpay : 512 + c.rx_bytes.toNat ≤ BUF_SIZE)
    (hkey : ∀ id, (x.key id).length ≤ 256)
    (hhost : (cstr x.upstream_addr).length ≤ 256)
    (hport : (cstr x.upstream_port).length ≤ 14)
    (henc : ∀ l e, (x.io_encrypt l e).1.length = l.length)
    (hr : connect_server x fuel w c = some r) : r.2.overrun = false := by
  have step : ∀ (w1 : world_t) (c1 : conn_t) (a : attempt_t),
      c1.overrun = false → c1.rx_bytes = c.rx_bytes → 1 ≤ w1.health.length →
      connect_attempt x w1 c1 = some a →
      (attempt_conn a).overrun = false ∧ (attempt_conn a).rx_bytes = c.rx_bytes ∧
        1 ≤ (attempt_world a).health.length := by
    intro w1 c1 a h1 h2 h3 ha
    obtain ⟨id, health, pos, tb, ev, ov, -, -, hlen, -, ⟨-, -, hb3⟩, h | h | h | h | h⟩ :=
      connect_attempt_cases x w1 c1 h3
    · rw [h.2, Option.some.injEq] at ha
      subst ha
      exact ⟨h1, h2, by simp only [attempt_world]; omega⟩
    all_goals
      have hov2 : ov = false := by
        rw [hb3, build_request_no_overrun x _ _ (by simp only; rw [h2]; exact hpay)
          (hkey _) hhost hport henc]
        exact h1
    · rw [h.2.2, Option.some.injEq] at ha
      subst ha
      exact ⟨hov2, h2, by simp only [attempt_world]; omega⟩
    · rw [h.2.2.2.2, Option.some.injEq] at ha
      subst ha
      exact ⟨hov2, h2, by simp only [attempt_world, List.length_set]; omega⟩
    · rw [h.2.2.2.2, Option.some.injEq] at ha
      subst ha
      exact ⟨hov2, h2, by simp only [attempt_world, List.length_set]; omega⟩
    · rw [h.2.2.2, Option.some.injEq] at ha
      subst ha
      exact ⟨hov2, h2, by simp only [attempt_world]; omega⟩
  refine connect_server_induct x
    (fun w1 c1 => c1.overrun = false ∧ c1.rx_bytes = c.rx_bytes ∧ 1 ≤ w1.health.length)
    (fun _ c2 => c2.overrun = false) ?_ ?_ fuel w c r ⟨hov, rfl, hn⟩ hr
  · intro w1 c1 w2 c2 hP ha
    exact step w1 c1 _ hP.1 hP.2.1 hP.2.2 ha
  · intro w1 c1 w2 c2 hP ha
    exact (step w1 c1 _ hP.1 hP.2.1 hP.2.2 ha).1

/-! ## Where the salt of a request comes from -/

theorem connect_attempt_salt (x : env_t) (c0 : conn_t) (w : world_t) (c : conn_t)
    (a : attempt_t) (hn : 1 ≤ w.health.length)
    (hrb : c.rx_buf = c0.rx_buf) (hrn : c.rx_bytes = c0.rx_bytes)
    (hbuf : BUF_SIZE ≤ c.tx_buf.length)
    (hp : x.ns_initparse (c0.rx_buf.drop 2) (c0.rx_bytes - 2) = true)
    (ha : connect_attempt x w c = some a) :
    (∃ w1 c1, holds_request x c0 w1 c1 (attempt_conn a) ∧
        (attempt_world a).rand_pos = w1.rand_pos + 236 ∧ w.rand_pos < w1.rand_pos ∧
        select_server x.rand w.health w.rand_pos =
          some ((attempt_conn a).server_id, w1.health, w1.rand_pos)) ∧
      BUF_SIZE ≤ (attempt_conn a).tx_buf.length ∧ 1 ≤ (attempt_world a).health.length ∧
      w.rand_pos ≤ (attempt_world a).rand_pos := by
  have hpc : x.ns_initparse (c.rx_buf.drop 2) (c.rx_bytes - 2) = true := by
    rw [hrb, hrn]; exact hp
  obtain ⟨id2, health2, pos2, hsel2, hlt, -, -, -, -⟩ :=
    select_server_returns x.rand w.health w.rand_pos hn
  obtain ⟨id, health, pos, tb, ev, ov, hsel, -, hlen, -, ⟨hb1, hb2, hb3⟩, h | h | h | h | h⟩ :=
    connect_attempt_cases x w c hn
  · rw [hpc] at h
    exact absurd h.1 (by simp)
  all_goals
    have hpos : w.rand_pos < pos := by
      rw [hsel2, Option.some.injEq, Prod.mk.injEq, Prod.mk.injEq] at hsel
      omega
  · rw [h.2.2, Option.some.injEq] at ha
    subst ha
    refine ⟨⟨{ w with health := health, rand_pos := pos },
      { c with server_id := id, server_tried := c.server_tried + 1 },
      ⟨hrb, hrn, hbuf, rfl, hb1, hb2, hb3, by simp only [attempt_conn]; rw [hrn], hrb, hrn⟩,
      rfl, hpos, hsel⟩, ?_, ?_, ?_⟩
    · simp only [attempt_conn]
      rw [hb1]
      exact build_request_length x _ _ hbuf
    · simp only [attempt_world]; omega
    · simp only [attempt_world]; omega
  · rw [h.2.2.2.2, Option.some.injEq] at ha
    subst ha
    refine ⟨⟨{ w with health := health, rand_pos := pos },
      { c with server_id := id, server_tried := c.server_tried + 1 },
      ⟨hrb, hrn, hbuf, rfl, hb1, hb2, hb3, by simp only [attempt_conn]; rw [hrn], hrb, hrn⟩,
      rfl, hpos, hsel⟩, ?_, ?_, ?_⟩
    · simp only [attempt_conn]
      rw [hb1]
      exact build_request_length x _ _ hbuf
    · simp only [attempt_world, List.length_set]; omega
    · simp only [attempt_world]; omega
  · rw [h.2.2.2.2, Option.some.injEq] at ha
    subst ha
    refine ⟨⟨{ w with health := health, rand_pos := pos },
      { c with server_id := id, server_tried := c.server_tried + 1 },
      ⟨hrb, hrn, hbuf, rfl, hb1, hb2, hb3, by simp only [attempt_conn]; rw [hrn], hrb, hrn⟩,
      rfl, hpos, hsel⟩, ?_, ?_, ?_⟩
    · simp only [attempt_conn]
      rw [hb1]
      exact build_request_length x _ _ hbuf
    · simp only [attempt_world, List.length_set]; omega
    · simp only [attempt_world]; omega
  · rw [h.2.2.2, Option.some.injEq] at ha
    subst ha
    refine ⟨⟨{ w with health := health, rand_pos := pos },
      { c with server_id := id, server_tried := c.server_tried + 1 },
      ⟨hrb, hrn, hbuf, rfl, hb1, hb2, hb3, by simp only [attempt_conn]; rw [hrn], hrb, hrn⟩,
      rfl, hpos, hsel⟩, ?_, ?_, ?_⟩
    · simp only [attempt_conn]
      rw [hb1]
      exact build_request_length x _ _ hbuf
    · simp only [attempt_world]; omega
    · simp only [attempt_world]; omega

theorem connect_server_salt (x : env_t) (fuel : Nat) (w : world_t) (c : conn_t)
    (r : world_t × conn_t) (hn : 1 ≤ w.health.length) (hbuf : BUF_SIZE ≤ c.tx_buf.length)
    (hp : x.ns_initparse (c.rx_buf.drop 2) (c.rx_bytes - 2) = true)
    (hr : connect_server x fuel w c = some r) :
    ∃ (w0 w1 : world_t) (c1 : conn_t), holds_request x c w1 c1 r.2 ∧ r.1.rand_pos = w1.rand_pos + 236 ∧
      w.rand_pos ≤ w0.rand_pos ∧ w0.rand_pos < w1.rand_pos ∧
      select_server x.rand w0.health w0.rand_pos =
        some (r.2.server_id, w1.health, w1.rand_pos) := by
  refine connect_server_induct x
    (fun w1 c1 => c1.rx_buf = c.rx_buf ∧ c1.rx_bytes = c.rx_bytes ∧
      BUF_SIZE ≤ c1.tx_buf.length ∧ 1 ≤ w1.health.length ∧ w.rand_pos ≤ w1.rand_pos)
    (fun w2 c2 => ∃ (w0 w1 : world_t) (c1 : conn_t), holds_request x c w1 c1 c2 ∧ w2.rand_pos = w1.rand_pos + 236 ∧
      w.rand_pos ≤ w0.rand_pos ∧ w0.rand_pos < w1.rand_pos ∧
      select_server x.rand w0.health w0.rand_pos =
        some (c2.server_id, w1.health, w1.rand_pos))
    ?_ ?_ fuel w c r ⟨rfl, rfl, hbuf, hn, le_refl _⟩ hr
  · intro w1 c1 w2 c2 hP ha
    obtain ⟨⟨w3, c3, h3, -, -, -⟩, hl, hh, hle⟩ :=
      connect_attempt_salt x c w1 c1 _ hP.2.2.2.1 hP.1 hP.2.1 hP.2.2.1 hp ha
    exact ⟨h3.2.2.2.2.2.2.2.2.1, h3.2.2.2.2.2.2.2.2.2, hl, hh, le_trans hP.2.2.2.2 hle⟩
  · intro w1 c1 w2 c2 hP ha
    obtain ⟨⟨w3, c3, h3, g1, g2, g3⟩, -, -, -⟩ :=
      connect_attempt_salt x c w1 c1 _ hP.2.2.2.1 hP.1 hP.2.1 hP.2.2.1 hp ha
    exact ⟨w1, w3, c3, h3, g1, hP.2.2.2.2, g2, g3⟩

/-! ## Lemmas on the receive callbacks -/

theorem select_loop_mono (rnd : Nat → Nat) (fuel k : Nat) (health : List Int) (pos : Nat)
    (r : Nat × List Int × Nat) (h : select_loop rnd fuel health pos = some r) :
    select_loop rnd (fuel + k) health pos = some r := by
  induction fuel generalizing health pos with
  | zero => simp [select_loop] at h
  | succ fuel ih =>
    rw [Nat.add_right_comm]
    by_cases hc : 0 ≤ health.getD (rnd pos % 256 % health.length) 0
    · simp only [select_loop, if_pos hc] at h ⊢
      exact h
    · simp only [select_loop, if_neg hc] at h ⊢
      exact ih _ _ h

theorem htons_bytes_of_lt (n : Nat) (h : n < 65536) :
    htons_bytes (n : Int) = [n / 256, n % 256] := by
  have : ((n : Int) % 65536).toNat = n := by omega
  simp only [htons_bytes, this]

theorem udp_recv_rx_buf (fd : Int) (dgram : List Nat) (c : conn_t) :
    (udp_recv fd (some dgram) c).rx_buf =
      memcpy (memcpy c.rx_buf 2 (dgram.take (BUF_SIZE - 2))) 0
        (htons_bytes ((dgram.take (BUF_SIZE - 2)).length : Int)) := rfl

theorem udp_recv_rx_bytes (fd : Int) (dgram : List Nat) (c : conn_t) :
    (udp_recv fd (some dgram) c).rx_bytes = ((dgram.take (BUF_SIZE - 2)).length : Int) + 2 := rfl

theorem udp_recv_tx_buf (fd : Int) (dgram : Option (List Nat)) (c : conn_t) :
    (udp_recv fd dgram c).tx_buf = c.tx_buf := rfl

theorem udp_recv_payload (fd : Int) (dgram : List Nat) (c : conn_t)
    (hL : dgram.length ≤ BUF_SIZE - 2) (hrx : c.rx_buf.length = BUF_SIZE) :
    (udp_recv fd (some dgram) c).rx_bytes = (dgram.length : Int) + 2 ∧
    (udp_recv fd (some dgram) c).rx_buf.length = BUF_SIZE ∧
    slice (udp_recv fd (some dgram) c).rx_buf 0 (dgram.length + 2) =
      [dgram.length / 256, dgram.length % 256] ++ dgram := by
  have hB : BUF_SIZE = 8192 := rfl
  have ht : dgram.take (BUF_SIZE - 2) = dgram := List.take_of_length_le hL
  rw [udp_recv_rx_bytes, udp_recv_rx_buf, ht, htons_bytes_of_lt _ (by omega)]
  have l1 : (memcpy c.rx_buf 2 dgram).length = 8192 := by
    rw [length_memcpy _ _ _ (by omega)]; omega
  refine ⟨rfl, ?_, ?_⟩
  · rw [length_memcpy _ _ _ (by omega), l1]
    simp only [List.length_cons, List.length_nil]
    omega
  · rw [slice_split _ 0 (dgram.length + 2) 2 dgram.length (by omega), Nat.zero_add,
      slice_memcpy_same _ 0 [dgram.length / 256, dgram.length % 256] 2 (by omega) rfl,
      slice_memcpy_after _ _ _ _ _ (by omega) (by simp),
      slice_memcpy_same _ _ _ dgram.length (by omega) rfl]

theorem local_read_cb_some (x : env_t) (d : List Nat) (w : world_t) (c : conn_t)
    (hd : d ≠ []) :
    local_read_cb x (some d) w c =
      connect_server x (tries_left (tcp_recv d c)) w (tcp_recv d c) := by
  have hpos : ¬ (((d.take BUF_SIZE).length : Int) ≤ 0) := by
    have : 0 < (d.take BUF_SIZE).length := by
      cases d with
      | nil => exact absurd rfl hd
      | cons a l => simp [BUF_SIZE]
    omega
  unfold local_read_cb tcp_recv
  simp only [Option.getD_some, Option.isSome_some, if_true]
  rw [if_neg hpos]

theorem dispatch_local_readable (x : env_t) (d : List Nat) (w : world_t) (c : conn_t)
    (hw : c.w_local_read = true) (hfr : c.freed = 0) (hd : d ≠ []) :
    dispatch x (event_t.local_readable (some d)) (w, c) =
      connect_server x (tries_left (tcp_recv d c)) w (tcp_recv d c) := by
  unfold dispatch
  rw [if_neg (by simp [hfr])]
  simp only []
  rw [if_pos hw]
  exact local_read_cb_some x d w c hd

theorem udp_query_eq (x : env_t) (fd : Int) (dgram : Option (List Nat)) (w : world_t)
    (c : conn_t) (events : List event_t) :
    udp_query x fd dgram w c events =
      (connect_server x (tries_left (udp_recv fd dgram c)) w (udp_recv fd dgram c)).bind
        (run x events) := by
  simp only [udp_query, udp_read_cb]
  generalize connect_server x (tries_left (udp_recv fd dgram c)) w (udp_recv fd dgram c) = o
  cases o with
  | none => rfl
  | some r => rfl

/-! ## The request record -/

/-- C1: for every query that parses, every upstream host of at most 256 bytes
and every upstream port of at most 14 bytes, `connect_server` returns and leaves
in `tx_buf` the request that `build_request` made in the state `(w1, c1)` of its
last pass: `c1` holds the query, `w1` is the state in which `select_server` has
just returned the server of the request, and the 236 bytes at stream position
`w1.rand_pos` are the last bytes drawn in the run (`r.1.rand_pos` is 236
further).  When `io_encrypt` is first called the buffer holds the magic
`52 6F 6E 61` at 0..4, the host followed by NULs at 4..261, the port followed
by NULs at 261..276 and at 276..512 those 236 random bytes; the cipher key is
the hash of these bytes followed by the secret of the server.  In the finished
request the bytes 0..276 are the `io_encrypt` output for that header and the
bytes 276..512 are still the salt. -/
theorem connect_server_request_layout (x : env_t) (fuel : Nat) (w : world_t) (c : conn_t)
    (hhost : (cstr x.upstream_addr).length ≤ 256)
    (hport : (cstr x.upstream_port).length ≤ 14)
    (henc : ∀ l e, (x.io_encrypt l e).1.length = l.length)
    (hbuf : BUF_SIZE ≤ c.tx_buf.length) (hrx : c.rx_bytes.toNat ≤ c.rx_buf.length)
    (hn : 1 ≤ w.health.length) (hfuel : tries_left c ≤ fuel)
    (hp : x.ns_initparse (c.rx_buf.drop 2) (c.rx_bytes - 2) = true) :
    ∃ (r : world_t × conn_t) (w0 w1 : world_t) (c1 : conn_t),
      connect_server x fuel w c = some r ∧
      w.rand_pos ≤ w0.rand_pos ∧ w0.rand_pos < w1.rand_pos ∧
      select_server x.rand w0.health w0.rand_pos =
        some (r.2.server_id, w1.health, w1.rand_pos) ∧
      r.1.rand_pos = w1.rand_pos + 236 ∧
      c1.rx_buf = c.rx_buf ∧ c1.rx_bytes = c.rx_bytes ∧ c1.server_id = r.2.server_id ∧
      r.2.tx_buf = (build_request x w1 c1).2.tx_buf ∧
      slice (stage_header x w1 c1).2.tx_buf 0 4 = [0x52, 0x6F, 0x6E, 0x61] ∧
      slice (stage_header x w1 c1).2.tx_buf 4 257 =
        cstr x.upstream_addr ++ List.replicate (257 - (cstr x.upstream_addr).length) 0 ∧
      slice (stage_header x w1 c1).2.tx_buf 261 15 =
        cstr x.upstream_port ++ List.replicate (15 - (cstr x.upstream_port).length) 0 ∧
      slice (stage_header x w1 c1).2.tx_buf 276 236 =
        rand_bytes x.rand (r.1.rand_pos - 236) 236 ∧
      (stage_header x w1 c1).2.enc_evp =
        x.enc_init (x.sha512
          (rand_bytes x.rand (r.1.rand_pos - 236) 236 ++ x.key r.2.server_id)) ∧
      slice r.2.tx_buf 0 276 =
        (x.io_encrypt (slice (stage_header x w1 c1).2.tx_buf 0 276)
          (stage_header x w1 c1).2.enc_evp).1 ∧
      slice r.2.tx_buf 276 236 = rand_bytes x.rand (r.1.rand_pos - 236) 236 := by
  obtain ⟨r, hr⟩ := connect_server_total x fuel w c hn (by unfold tries_left at hfuel; omega)
  obtain ⟨w0, w1, c1, ⟨b1, b2, b3, b4, b5, -, -, -, -, -⟩, g1, g2, g3, g4⟩ :=
    connect_server_salt x fuel w c r hn hbuf hp hr
  obtain ⟨l1, l2, l3, l4, l5⟩ := stage_header_layout x w1 c1 b3 hhost hport
  obtain ⟨e1, e2, -⟩ := build_request_cipher x w1 c1 c.rx_bytes.toNat b3 (by rw [b2])
    (by rw [b1]; exact hrx) henc
  have hpos : r.1.rand_pos - 236 = w1.rand_pos := by omega
  rw [← hpos] at l4 l5
  refine ⟨r, w0, w1, c1, hr, g2, g3, g4, g1, b1, b2, b4, b5, l1, l2, l3, l4,
    by rw [← b4]; exact l5, ?_, ?_⟩
  · rw [b5]; exact e1
  · rw [b5, e2]; exact l4

theorem connect_server_request_layout_witness :
    (cstr env_up.upstream_addr).length ≤ 256 ∧ (cstr env_up.upstream_port).length ≤ 14 ∧
    BUF_SIZE ≤ (udp_recv 3 (some example_query) conn_new).tx_buf.length ∧
    1 ≤ world_two.health.length ∧
    ∃ (r : world_t × conn_t) (w1 : world_t) (c1 : conn_t),
      connect_server env_up 5 world_two (udp_recv 3 (some example_query) conn_new) = some r ∧
      r.1.rand_pos = w1.rand_pos + 236 ∧
      r.2.tx_buf = (build_request env_up w1 c1).2.tx_buf ∧
      slice (stage_header env_up w1 c1).2.tx_buf 0 4 = [0x52, 0x6F, 0x6E, 0x61] ∧
      slice (stage_header env_up w1 c1).2.tx_buf 4 257 =
        [56, 46, 56, 46, 56, 46, 56] ++ List.replicate 250 0 ∧
      slice (stage_header env_up w1 c1).2.tx_buf 261 15 = [53, 51] ++ List.replicate 13 0 ∧
      slice r.2.tx_buf 276 236 = rand_bytes env_up.rand (r.1.rand_pos - 236) 236 :=
  have hbuf : BUF_SIZE ≤ (udp_recv 3 (some example_query) conn_new).tx_buf.length := by
    rw [udp_recv_tx_buf]
    exact Nat.le_of_eq (List.length_replicate _ _).symm
  have hrx : (udp_recv 3 (some example_query) conn_new).rx_bytes.toNat ≤
      (udp_recv 3 (some example_query) conn_new).rx_buf.length := by
    have h := udp_recv_payload 3 example_query conn_new (by decide)
      (List.length_replicate _ _)
    rw [h.1, h.2.1]
    decide
  have h := connect_server_request_layout env_up 5 world_two
    (udp_recv 3 (some example_query) conn_new) (by decide) (by decide)
    (fun l _ => List.length_map _ _) hbuf hrx (by decide) (by decide) (by decide)
  ⟨by decide, by decide, hbuf, by decide,
    h.elim fun r h => h.elim fun _ h => h.elim fun w1 h => h.elim fun c1 h =>
      ⟨r, w1, c1, h.1, h.2.2.2.2.1, h.2.2.2.2.2.2.2.2.1, h.2.2.2.2.2.2.2.2.2.1,
        h.2.2.2.2.2.2.2.2.2.2.1, h.2.2.2.2.2.2.2.2.2.2.2.1,
        h.2.2.2.2.2.2.2.2.2.2.2.2.2.2.2⟩⟩

/-- C2: for every UDP datagram of length `L` with `0 < L ≤ 8190` that parses,
`udp_read_cb` hands on `rx_bytes = L + 2` and the payload `L div 256`,
`L mod 256` followed by the datagram, and returns with `tx_bytes = 512 + L + 2`
and a request that `build_request` made in some state `(w1, c1)`: when
`io_encrypt` is called for the payload, the bytes at 512..512+L+2 are that
payload, and the finished request holds their `io_encrypt` output there.  For
a 29-byte datagram the request has 543 bytes.  As long as `L + 514 ≤ BUF_SIZE`
(and secret, host and port have their bounds) no store leaves `tx_buf`; for a
longer datagram the request runs past the end of `tx_buf`. -/
theorem udp_request_framing (x : env_t) (fd : Int) (dgram : List Nat) (w : world_t)
    (c : conn_t)
    (hL : 0 < dgram.length) (hL2 : dgram.length ≤ 8190)
    (hrxb : c.rx_buf.length = BUF_SIZE) (htxb : BUF_SIZE ≤ c.tx_buf.length)
    (henc : ∀ l e, (x.io_encrypt l e).1.length = l.length)
    (hn : 1 ≤ w.health.length) (hp : parses x (udp_recv fd (some dgram) c)) :
    (udp_recv fd (some dgram) c).rx_bytes = (dgram.length : Int) + 2 ∧
    slice (udp_recv fd (some dgram) c).rx_buf 0 (dgram.length + 2) =
      [dgram.length / 256, dgram.length % 256] ++ dgram ∧
    ∃ w2 c2 w1 c1,
      udp_read_cb x fd (some dgram) w (some c) = some (w2, some c2) ∧
      c2.tx_bytes = 512 + (dgram.length : Int) + 2 ∧
      (dgram.length = 29 → c2.tx_bytes = 543) ∧
      c2.tx_buf = (build_request x w1 c1).2.tx_buf ∧
      slice (stage_payload x (stage_header x w1 c1).2).tx_buf 512 (dgram.length + 2) =
        [dgram.length / 256, dgram.length % 256] ++ dgram ∧
      slice c2.tx_buf 512 (dgram.length + 2) =
        (x.io_encrypt ([dgram.length / 256, dgram.length % 256] ++ dgram)
          (stage_payload x (stage_header x w1 c1).2).enc_evp).1 ∧
      (dgram.length + 514 ≤ BUF_SIZE → (∀ id, (x.key id).length ≤ 256) →
        (cstr x.upstream_addr).length ≤ 256 → (cstr x.upstream_port).length ≤ 14 →
        c.overrun = false → c2.overrun = false) ∧
      (BUF_SIZE < dgram.length + 514 → c2.overrun = true) := by
  have hB : BUF_SIZE = 8192 := rfl
  obtain ⟨u1, u2, u3⟩ := udp_recv_payload fd dgram c (by omega) hrxb
  refine ⟨u1, u3, ?_⟩
  obtain ⟨r, hr⟩ := connect_server_total x (tries_left (udp_recv fd (some dgram) c)) w
    (udp_recv fd (some dgram) c) hn (by simp [tries_left])
  obtain ⟨w1, c1, b1, b2, b3, -, b5, -, b7, b8, -, -⟩ :=
    connect_server_built x _ w (udp_recv fd (some dgram) c) r hn
      (by rw [udp_recv_tx_buf]; exact htxb) hp hr
  have hnat : c1.rx_bytes.toNat = dgram.length + 2 := by rw [b2, u1]; omega
  have hlen : dgram.length + 2 ≤ c1.rx_buf.length := by rw [b1, u2]; omega
  obtain ⟨-, -, e3⟩ := build_request_cipher x w1 c1 (dgram.length + 2) b3 hnat hlen henc
  have hpl := stage_payload_plain x (stage_header x w1 c1).2 (dgram.length + 2)
    (stage_header_length x w1 c1 b3) (by rw [(stage_header_rx x w1 c1).1]; exact hnat)
    (by rw [(stage_header_rx x w1 c1).2]; exact hlen)
  rw [(stage_header_rx x w1 c1).2, b1, u3] at hpl
  rw [b1, u3] at e3
  refine ⟨r.1, r.2, w1, c1, ?_, ?_, ?_, b5, hpl, by rw [b5]; exact e3, ?_, ?_⟩
  · simp only [udp_read_cb, hr, Option.map_some']
  · rw [b8, u1]; omega
  · intro h29
    rw [b8, u1, h29]
    rfl
  · intro hfit hkey hhost hport hov
    exact connect_server_no_overrun x _ w (udp_recv fd (some dgram) c) r hn hov
      (by rw [u1]; omega) hkey hhost hport henc hr
  · intro hbig
    rw [b7]
    exact build_request_overrun x w1 c1 (by
      rw [hnat, length_slice_of_le _ _ _ (by omega)]
      omega)

theorem udp_request_framing_witness :
    0 < example_query.length ∧ example_query.length ≤ 8190 ∧
    conn_new.rx_buf.length = BUF_SIZE ∧ BUF_SIZE ≤ conn_new.tx_buf.length ∧
    1 ≤ world_two.health.length ∧ parses env_up (udp_recv 3 (some example_query) conn_new) ∧
    (udp_recv 3 (some example_query) conn_new).rx_bytes = 31 ∧
    slice (udp_recv 3 (some example_query) conn_new).rx_buf 0 31 = [0, 29] ++ example_query ∧
    ∃ w2 c2, udp_read_cb env_up 3 (some example_query) world_two (some conn_new) =
      some (w2, some c2) ∧ c2.tx_bytes = 543 ∧ c2.overrun = false :=
  have hrx : conn_new.rx_buf.length = BUF_SIZE := List.length_replicate _ _
  have htx : BUF_SIZE ≤ conn_new.tx_buf.length :=
    Nat.le_of_eq (List.length_replicate _ _).symm
  have hp : parses env_up (udp_recv 3 (some example_query) conn_new) := by
    unfold parses; decide
  have h := udp_request_framing env_up 3 example_query world_two conn_new (by decide)
    (by decide) hrx htx (fun l _ => List.length_map _ _) (by decide) hp
  ⟨by decide, by decide, hrx, htx, by decide, hp, h.1, h.2.1,
    h.2.2.elim fun w2 h => h.elim fun c2 h => h.elim fun _ h => h.elim fun _ h =>
      ⟨w2, c2, h.1, h.2.2.1 rfl,
        h.2.2.2.2.2.2.1 (by decide)
          (fun _ => show ([97, 98, 99] : List Nat).length ≤ 256 by decide) (by decide)
          (by decide) rfl⟩⟩
/-! ## The selector -/

/-- C3: for a health table with at least one server and every sequence of
random bytes, `select_server` returns: with any number of loop iterations above
the sum of `-health` over the entries with negative health, the loop ends after
at most 1 plus that sum draws, and the id it returns is below `server_num` and
has health at least 0 in the table it leaves. -/
theorem select_server_terminates (rnd : Nat → Nat) (health : List Int) (pos fuel : Nat)
    (hn : 1 ≤ health.length) (hfuel : deficit health < fuel) :
    ∃ id health2 pos2, select_loop rnd fuel health pos = some (id, health2, pos2) ∧
      select_server rnd health pos = some (id, health2, pos2) ∧
      pos < pos2 ∧ pos2 - pos ≤ 1 + deficit health ∧
      id < health.length ∧ health2.length = health.length ∧ 0 ≤ health2.getD id 0 := by
  obtain ⟨id, health2, pos2, hs, h1, h2, h3, h4, h5⟩ :=
    select_server_returns rnd health pos hn
  refine ⟨id, health2, pos2, ?_, hs, h1, h2, h3, h4, h5⟩
  have := select_loop_mono rnd (deficit health + 1) (fuel - (deficit health + 1)) health pos _ hs
  rw [show deficit health + 1 + (fuel - (deficit health + 1)) = fuel by omega] at this
  exact this

theorem select_server_terminates_witness :
    1 ≤ ([-2, 0, -1] : List Int).length ∧ deficit [-2, 0, -1] < 4 ∧
    ∃ id health2 pos2,
      select_loop (fun k => 3 * k) 4 [-2, 0, -1] 0 = some (id, health2, pos2) ∧
      select_server (fun k => 3 * k) [-2, 0, -1] 0 = some (id, health2, pos2) ∧
      0 < pos2 ∧ pos2 - 0 ≤ 1 + deficit [-2, 0, -1] ∧
      id < ([-2, 0, -1] : List Int).length ∧
      health2.length = ([-2, 0, -1] : List Int).length ∧ 0 ≤ health2.getD id 0 :=
  ⟨by decide, by decide,
    select_server_terminates (fun k => 3 * k) [-2, 0, -1] 0 4 (by decide) (by decide)⟩
/-! ## The attempt counter -/

/-- C4: after `local_read_cb` (on a non-empty read) or `udp_read_cb` has reset
`server_tried`, every state the connection reaches under any sequence of
events, with any results of its system calls, has `0 ≤ server_tried ≤ MAX_TRY`,
and the query has made at most four `socket()` and four `connect()` calls: no
fifth attempt is started.  The run itself always yields a state. -/
theorem server_tried_le_max_try (x : env_t) (w : world_t) (c : conn_t) (events : List event_t)
    (hn : 1 ≤ w.health.length) (hfr : c.freed = 0) :
    (∀ d : List Nat, c.w_local_read = true → d ≠ [] →
      ∃ s, run x (event_t.local_readable (some d) :: events) (w, c) = some s ∧
        0 ≤ s.2.server_tried ∧ s.2.server_tried ≤ MAX_TRY ∧
        s.1.n_socket ≤ w.n_socket + 4 ∧ s.1.connects.length ≤ w.connects.length + 4) ∧
    (∀ (fd : Int) (dgram : Option (List Nat)), c.w_local_read = false →
      ∃ s, udp_query x fd dgram w c events = some s ∧
        0 ≤ s.2.server_tried ∧ s.2.server_tried ≤ MAX_TRY ∧
        s.1.n_socket ≤ w.n_socket + 4 ∧ s.1.connects.length ≤ w.connects.length + 4) := by
  have fin : ∀ s : world_t × conn_t, tried_inv w.n_socket w.connects.length s →
      0 ≤ s.2.server_tried ∧ s.2.server_tried ≤ MAX_TRY ∧
      s.1.n_socket ≤ w.n_socket + 4 ∧ s.1.connects.length ≤ w.connects.length + 4 := by
    intro s hs
    obtain ⟨h1, h2, -, h4, h5, -⟩ := hs
    simp only [MAX_TRY] at h1 ⊢
    exact ⟨h2, h1, by omega, by omega⟩
  constructor
  · intro d hw hd
    obtain ⟨s0, h0, hi0⟩ := connect_server_tried x w (tcp_recv d c) hn rfl rfl
    obtain ⟨s, hs, hi⟩ := run_tried x events _ _ s0 hi0
    refine ⟨s, ?_, fin s hi⟩
    rw [run, dispatch_local_readable x d w c hw hfr hd, h0]
    exact hs
  · intro fd dgram hw
    obtain ⟨s0, h0, hi0⟩ := connect_server_tried x w (udp_recv fd dgram c) hn rfl hw
    obtain ⟨s, hs, hi⟩ := run_tried x events _ _ s0 hi0
    refine ⟨s, ?_, fin s hi⟩
    rw [udp_query_eq, h0]
    exact hs

theorem server_tried_le_max_try_witness :
    1 ≤ world_two.health.length ∧ conn_new.freed = 0 ∧
    ∃ s, udp_query env_down 3 (some example_query) world_two conn_new
        [event_t.connect_ready 111 111] = some s ∧
      0 ≤ s.2.server_tried ∧ s.2.server_tried ≤ MAX_TRY ∧
      s.1.n_socket ≤ world_two.n_socket + 4 ∧
      s.1.connects.length ≤ world_two.connects.length + 4 :=
  ⟨by decide, rfl,
    (server_tried_le_max_try env_down world_two conn_new [event_t.connect_ready 111 111]
      (by decide) rfl).2 3 (some example_query) rfl⟩
/-! ## Connect failures -/

/-- C5, evaluated: a UDP query is attempted at server 0, the `connect` is
reported in progress, and the connection is then refused.  (1) `connect_cb`
is handed the error 111 (`ECONNREFUSED`) while `errno` is still `EINPROGRESS`:
the health of server 0 stays 0, the remote socket is not closed, no second
attempt is made although `server_tried` is 1, and no watcher is left.  (2) The
same error with `errno` 111: server 0 goes to -10, socket 6 is closed and
server 1 is attempted.  (3) The same refusal returned by `connect` itself in
`connect_server`: again server 0 goes to -10, socket 6 is closed and server 1
is attempted.  (4) Whatever the state, an error reported to `connect_cb` while
`errno` is `EINPROGRESS` changes nothing but the stopped watcher. -/
theorem connect_cb_stale_errno :
    (udp_query env_counting 3 (some example_query) world_two conn_new
        [event_t.connect_ready 111 EINPROGRESS]).map
      (fun s => (s.1.health, s.1.connects, s.1.closed, s.1.n_socket, s.2.server_tried,
        s.2.freed, s.2.w_remote_write)) =
      some ([0, 0], [0], [], 1, 1, 0, none) ∧
    (udp_query env_counting 3 (some example_query) world_two conn_new
        [event_t.connect_ready 111 111]).map
      (fun s => (s.1.health, s.1.connects, s.1.closed, s.1.n_socket, s.2.server_tried,
        s.2.freed, s.2.w_remote_write)) =
      some ([-10, 0], [0, 1], [6], 2, 2, 0, some callback_t.connect_cb) ∧
    (udp_query env_first_refused 3 (some example_query) world_two conn_new []).map
      (fun s => (s.1.health, s.1.connects, s.1.closed, s.1.n_socket, s.2.server_tried,
        s.2.freed, s.2.w_remote_write)) =
      some ([-10, 0], [0, 1], [6], 2, 2, 0, some callback_t.connect_cb) ∧
    (∀ (x : env_t) (err : Int) (w : world_t) (c : conn_t), err ≠ 0 →
      connect_cb x err EINPROGRESS w c = some (w, { c with w_remote_write := none })) := by
  refine ⟨rfl, rfl, rfl, ?_⟩
  intro x err w c herr
  unfold connect_cb
  simp only []
  rw [if_neg herr, if_neg (by simp)]

/-! ## All servers down -/

/-- C6, as it fails: both servers start at health 0 and refuse every connection
at once, and every random byte is 0.  The query ends with `server_tried = 4`,
the record released and nothing sent to the client, but all four attempts went
to server 0 and server 1 still has health 0. -/
theorem all_servers_down_counterexample :
    (run env_down [event_t.local_readable (some ([0, 29] ++ example_query))]
        (world_two, conn_tcp)).map
      (fun s => (s.1.health, s.1.connects, s.2.server_tried, s.2.freed, s.1.sent_client)) =
      some ([-10, 0], [0, 0, 0, 0], 4, 1, []) := by
  decide

/-- C6, amended: two servers start at health 0, every `socket()` call succeeds,
no `connect()` returns 0, and the events are at least four results reported to
`connect_cb`, each a failure with `errno` other than `EINPROGRESS`.  Then for
every sequence of random bytes a query that parses (TCP or UDP) ends with
`server_tried = MAX_TRY`, its record released once, no watcher or timer left
and nothing sent to the client; the server attempted last has health -10 and
every health value lies between -10 and 0. -/
theorem all_servers_down (x : env_t) (w : world_t) (c : conn_t) (events : List event_t)
    (hx : refusing x) (hev : ∀ e ∈ events, failed_connect e) (hlen : 4 ≤ events.length)
    (hh : w.health = [0, 0]) (hfr : c.freed = 0) (h1 : c.w_local_write = false)
    (h2 : c.w_remote_read = false) (h3 : c.w_remote_write = none) (h4 : c.w_timer = false) :
    (∀ d : List Nat, c.w_local_read = true → d ≠ [] → parses x (tcp_recv d c) →
      ∃ s, run x (event_t.local_readable (some d) :: events) (w, c) = some s ∧
        s.2.server_tried = MAX_TRY ∧ s.2.freed = 1 ∧ s.1.sent_client = w.sent_client ∧
        s.2.w_remote_write = none ∧ s.2.w_remote_read = false ∧ s.2.w_local_read = false ∧
        s.2.w_local_write = false ∧ s.2.w_timer = false ∧
        s.1.health.length = 2 ∧ s.1.health.getD s.2.server_id 0 = -10 ∧
        ∀ v ∈ s.1.health, -10 ≤ v ∧ v ≤ 0) ∧
    (∀ (fd : Int) (dgram : Option (List Nat)), c.w_local_read = false →
      parses x (udp_recv fd dgram c) →
      ∃ s, udp_query x fd dgram w c events = some s ∧
        s.2.server_tried = MAX_TRY ∧ s.2.freed = 1 ∧ s.1.sent_client = w.sent_client ∧
        s.2.w_remote_write = none ∧ s.2.w_remote_read = false ∧ s.2.w_local_read = false ∧
        s.2.w_local_write = false ∧ s.2.w_timer = false ∧
        s.1.health.length = 2 ∧ s.1.health.getD s.2.server_id 0 = -10 ∧
        ∀ v ∈ s.1.health, -10 ≤ v ∧ v ≤ 0) := by
  have hn : 1 ≤ w.health.length := by rw [hh]; decide
  have hok : health_ok w.health := by
    rw [hh]
    intro v hv
    simp only [List.mem_cons, List.mem_singleton, List.not_mem_nil, or_false, or_self] at hv
    omega
  have key : ∀ c0 : conn_t, c0.freed = 0 → c0.w_local_write = false →
      c0.w_remote_read = false → c0.w_remote_write = none → c0.w_timer = false →
      c0.w_local_read = false → c0.server_tried = 0 → parses x c0 →
      ∃ s, (connect_server x (tries_left c0) w c0).bind (run x events) = some s ∧
        s.2.server_tried = MAX_TRY ∧ s.2.freed = 1 ∧ s.1.sent_client = w.sent_client ∧
        s.2.w_remote_write = none ∧ s.2.w_remote_read = false ∧ s.2.w_local_read = false ∧
        s.2.w_local_write = false ∧ s.2.w_timer = false ∧
        s.1.health.length = 2 ∧ s.1.health.getD s.2.server_id 0 = -10 ∧
        ∀ v ∈ s.1.health, -10 ≤ v ∧ v ≤ 0 := by
    intro c0 g0 g1 g2 g3 g4 g5 g6 hp
    obtain ⟨r, hr⟩ := connect_server_total x (tries_left c0) w c0 hn (by simp [tries_left])
    have hd := connect_server_down x (tries_left c0) w c0 w c0 r hx hp
      ⟨rfl, rfl, hok, rfl, rfl, g5, g1, g2, g4⟩ hn g3 g0 (by rw [g6]) (by rw [g6]; decide) hr
    have hlen2 : 5 - r.2.server_tried ≤ (events.length : Int) := by
      rcases hd with hd | hd
      · have := hd.2.2.2.1
        omega
      · have := hd.2.2.2.1
        simp only [MAX_TRY] at this
        omega
    obtain ⟨s, hs, hdone⟩ := run_down x w c0 events r hx hp hev hd hlen2
    refine ⟨s, by rw [hr]; exact hs, ?_⟩
    obtain ⟨⟨f1, f2, f3, -, -, f6, f7, f8, f9⟩, d1, d2, d3, d4⟩ := hdone
    refine ⟨d3, d2, f1, d1, f8, f6, f7, f9, by rw [f2, hh]; rfl, d4, f3⟩
  constructor
  · intro d hw hd hp
    obtain ⟨s, hs, hfin⟩ := key (tcp_recv d c) hfr h1 h2 h3 h4 rfl rfl hp
    refine ⟨s, ?_, hfin⟩
    rw [run, dispatch_local_readable x d w c hw hfr hd]
    cases hc : connect_server x (tries_left (tcp_recv d c)) w (tcp_recv d c) with
    | none => rw [hc] at hs; exact absurd hs (by simp)
    | some r => rw [hc] at hs; exact hs
  · intro fd dgram hw hp
    obtain ⟨s, hs, hfin⟩ := key (udp_recv fd dgram c) hfr h1 h2 h3 h4 hw rfl hp
    refine ⟨s, ?_, hfin⟩
    rw [udp_query_eq]
    exact hs
theorem all_servers_down_witness :
    refusing env_up ∧
    (∀ e ∈ List.replicate 4 (event_t.connect_ready 111 111), failed_connect e) ∧
    4 ≤ (List.replicate 4 (event_t.connect_ready 111 111)).length ∧
    world_two.health = [0, 0] ∧ conn_new.freed = 0 ∧ conn_new.w_local_write = false ∧
    conn_new.w_remote_read = false ∧ conn_new.w_remote_write = none ∧
    conn_new.w_timer = false ∧ conn_new.w_local_read = false ∧
    parses env_up (udp_recv 3 (some example_query) conn_new) ∧
    ∃ s, udp_query env_up 3 (some example_query) world_two conn_new
        (List.replicate 4 (event_t.connect_ready 111 111)) = some s ∧
      s.2.server_tried = MAX_TRY ∧ s.2.freed = 1 ∧ s.1.sent_client = world_two.sent_client ∧
      s.2.w_remote_write = none ∧ s.2.w_remote_read = false ∧ s.2.w_local_read = false ∧
      s.2.w_local_write = false ∧ s.2.w_timer = false ∧
      s.1.health.length = 2 ∧ s.1.health.getD s.2.server_id 0 = -10 ∧
      ∀ v ∈ s.1.health, -10 ≤ v ∧ v ≤ 0 :=
  have hx : refusing env_up := ⟨fun k => by simp [env_up, env_down]; omega,
    fun k => by simp [env_up, env_down]⟩
  have hev : ∀ e ∈ List.replicate 4 (event_t.connect_ready 111 111), failed_connect e :=
    fun e he => ⟨111, 111, (List.mem_replicate.mp he).2, by decide, by decide⟩
  have hp : parses env_up (udp_recv 3 (some example_query) conn_new) := by
    unfold parses; decide
  ⟨hx, hev, by decide, rfl, rfl, rfl, rfl, rfl, rfl, rfl, hp,
    (all_servers_down env_up world_two conn_new
      (List.replicate 4 (event_t.connect_ready 111 111)) hx hev (by decide) rfl rfl rfl rfl rfl
      rfl).2 3 (some example_query) rfl hp⟩
/-! ## Resources on the UDP path -/

/-- C7, evaluated: a UDP query whose `sock_local` is the listener socket 3.
The callbacks of the connection call `close` on socket 3 when the datagram does
not parse, when `socket()` fails, when the fourth connect fails, when `send`
to the remote fails with `ECONNRESET`, and when the remote closes without a
reply; in each case the log of `close` calls contains 3. -/
theorem udp_error_paths_close_listener :
    (udp_query env_up 3 (some [0]) world_two conn_new []).map
      (fun s => (s.2.protocol, s.2.sock_local, s.1.closed)) =
      some (protocol_t.SOCK_DGRAM, 3, [3]) ∧
    (udp_query { env_up with sys_socket := fun _ => -1 } 3 (some example_query) world_two
      conn_new []).map (fun s => (s.2.protocol, s.2.sock_local, s.1.closed)) =
      some (protocol_t.SOCK_DGRAM, 3, [3]) ∧
    (udp_query env_down 3 (some example_query) world_two conn_new []).map
      (fun s => (s.2.protocol, s.2.sock_local, s.1.closed)) =
      some (protocol_t.SOCK_DGRAM, 3, [6, 7, 8, 3, 9]) ∧
    (udp_query env_up 3 (some example_query) world_two conn_new
      [event_t.connect_ready 0 0, event_t.remote_writable (-1) 104]).map
      (fun s => (s.2.protocol, s.2.sock_local, s.1.closed)) =
      some (protocol_t.SOCK_DGRAM, 3, [3, 6]) ∧
    (udp_query env_up 3 (some example_query) world_two conn_new
      [event_t.connect_ready 0 0, event_t.remote_writable 543 0,
        event_t.remote_readable (some []) 0 0 true]).map
      (fun s => (s.2.protocol, s.2.sock_local, s.1.closed)) =
      some (protocol_t.SOCK_DGRAM, 3, [3, 6]) :=
  ⟨rfl, rfl, rfl, rfl, rfl⟩

/-- C8, evaluated: (1) a UDP query is answered: the 29 answer bytes are handed
to `sendto`, after which no watcher and no timer of the connection is started
and `mem_delete` was never called on the record; (2) `connect_cb` is handed
the error 111 while `errno` is `EINPROGRESS`: no watcher and no timer is left,
the record was not released and the remote socket 6 was not closed. -/
theorem udp_reply_leaks_record :
    (udp_query env_up 3 (some example_query) world_two conn_new
      [event_t.connect_ready 0 0, event_t.remote_writable 543 0,
        event_t.remote_readable (some example_reply) 29 0 true]).map
      (fun s => (s.1.sent_client, s.2.freed, s.1.closed,
        (s.2.w_local_read, s.2.w_local_write, s.2.w_remote_read, s.2.w_remote_write,
          s.2.w_timer))) =
      some (example_query, 0, [6], (false, false, false, none, false)) ∧
    (udp_query env_up 3 (some example_query) world_two conn_new
      [event_t.connect_ready 111 EINPROGRESS]).map
      (fun s => (s.2.sock_remote, s.2.freed, s.1.closed,
        (s.2.w_local_read, s.2.w_local_write, s.2.w_remote_read, s.2.w_remote_write,
          s.2.w_timer))) =
      some (6, 0, [], (false, false, false, none, false)) :=
  ⟨rfl, rfl⟩
/-! ## Partial writes -/

/-- C9: a connection that waits for its connect, with a request of
`tx_bytes > 0` bytes, is sent a successful connect and then writable events
whose `send` results are each at least 1 and together at most `tx_bytes`, split
anywhere into a first part `p` and a rest `q`.  After `p` the remote socket
has accepted exactly the first `p.sum` bytes of `tx_buf`, after all events the
first `(p ++ q).sum` bytes, in order; `tx_offset` does not decrease; while
events remain (and whenever fewer than `tx_bytes` bytes are sent) the write
watcher is still `remote_write_cb`, the read watcher is untouched and
`tx_offset` is the number of bytes sent; the read watcher is started and the
write watcher stopped once the bytes sent reach `tx_bytes`.  For 600 bytes
taken in chunks of 100 the fifth event leaves the write watcher started and
the sixth starts the read watcher. -/
theorem remote_write_cb_partial_writes (x : env_t) (e0 errno : Int) (w : world_t) (c : conn_t)
    (hw : c.w_remote_write = some callback_t.connect_cb) (hfreed : c.freed = 0)
    (hpos : 0 < c.tx_bytes) :
    (∀ p q : List Int, (∀ n ∈ p ++ q, 1 ≤ n) → (p ++ q).sum ≤ c.tx_bytes →
      ∃ w1 c1 w2 c2,
        run x (event_t.connect_ready 0 e0 :: p.map (fun n => event_t.remote_writable n errno))
          (w, c) = some (w1, c1) ∧
        run x (event_t.connect_ready 0 e0 ::
          (p ++ q).map (fun n => event_t.remote_writable n errno)) (w, c) = some (w2, c2) ∧
        w1.sent_remote = w.sent_remote ++ slice c.tx_buf 0 p.sum.toNat ∧
        w2.sent_remote = w.sent_remote ++ slice c.tx_buf 0 (p ++ q).sum.toNat ∧
        c1.tx_offset ≤ c2.tx_offset ∧
        (q ≠ [] → c1.w_remote_write = some callback_t.remote_write_cb ∧
          c1.w_remote_read = c.w_remote_read ∧ c1.tx_offset = p.sum ∧
          c1.tx_bytes = c.tx_bytes - p.sum) ∧
        ((p ++ q).sum < c.tx_bytes → c2.w_remote_write = some callback_t.remote_write_cb ∧
          c2.w_remote_read = c.w_remote_read ∧ c2.tx_offset = (p ++ q).sum ∧
          c2.tx_bytes = c.tx_bytes - (p ++ q).sum) ∧
        ((p ++ q).sum = c.tx_bytes → c2.w_remote_write = none ∧ c2.w_remote_read = true)) ∧
    (c.tx_bytes = 600 →
      ∃ w5 c5 w6 c6,
        run x (event_t.connect_ready 0 e0 ::
          (List.replicate 5 (100 : Int)).map (fun n => event_t.remote_writable n errno))
          (w, c) = some (w5, c5) ∧
        c5.w_remote_write = some callback_t.remote_write_cb ∧
        c5.w_remote_read = c.w_remote_read ∧ c5.tx_offset = 500 ∧
        w5.sent_remote = w.sent_remote ++ slice c.tx_buf 0 500 ∧
        run x (event_t.connect_ready 0 e0 ::
          (List.replicate 6 (100 : Int)).map (fun n => event_t.remote_writable n errno))
          (w, c) = some (w6, c6) ∧
        c6.w_remote_write = none ∧ c6.w_remote_read = true ∧
        w6.sent_remote = w.sent_remote ++ slice c.tx_buf 0 600) := by
  refine ⟨fun p q hns hsum => run_connected_writes x e0 errno p q w c hw hfreed hpos hns hsum,
    fun h600 => ?_⟩
  obtain ⟨w5, c5, w6, c6, h1, h2, h3, h4, -, h6, -, h8⟩ :=
    run_connected_writes x e0 errno (List.replicate 5 100) [100] w c hw hfreed hpos
      (by decide) (by rw [h600]; decide)
  have h6 := h6 (by decide)
  have h8 := h8 (by rw [h600]; decide)
  exact ⟨w5, c5, w6, c6, h1, h6.1, h6.2.1, h6.2.2.1, h3, h2, h8.1, h8.2, h4⟩

theorem remote_write_cb_partial_writes_witness :
    conn_wait600.w_remote_write = some callback_t.connect_cb ∧ conn_wait600.freed = 0 ∧
    0 < conn_wait600.tx_bytes ∧
    ∃ w5 c5 w6 c6,
      run env_up (event_t.connect_ready 0 0 ::
        (List.replicate 5 (100 : Int)).map (fun n => event_t.remote_writable n 0))
        (world_two, conn_wait600) = some (w5, c5) ∧
      c5.w_remote_write = some callback_t.remote_write_cb ∧
      c5.w_remote_read = conn_wait600.w_remote_read ∧ c5.tx_offset = 500 ∧
      w5.sent_remote = world_two.sent_remote ++ slice conn_wait600.tx_buf 0 500 ∧
      run env_up (event_t.connect_ready 0 0 ::
        (List.replicate 6 (100 : Int)).map (fun n => event_t.remote_writable n 0))
        (world_two, conn_wait600) = some (w6, c6) ∧
      c6.w_remote_write = none ∧ c6.w_remote_read = true ∧
      w6.sent_remote = world_two.sent_remote ++ slice conn_wait600.tx_buf 0 600 :=
  ⟨rfl, rfl, by decide,
    (remote_write_cb_partial_writes env_up 0 0 world_two conn_wait600 rfl rfl (by decide)).2 rfl⟩
/-! ## The size of the request -/

/-- C10, evaluated: the receive callbacks hand on queries that do not fit.  For
a TCP read of more than `BUF_SIZE - 512` bytes (up to the `BUF_SIZE` that
`recv` is asked for), and for a UDP datagram of more than `BUF_SIZE - 514` bytes
(up to the `BUF_SIZE - 2` that `recvfrom` is asked for), once the query parses
`connect_server` stores past the end of `tx_buf` and leaves a `tx_bytes`
above `BUF_SIZE`. -/
theorem tx_buf_overrun (x : env_t) (w : world_t) (c : conn_t)
    (hn : 1 ≤ w.health.length) (hrx : c.rx_buf.length = BUF_SIZE)
    (htx : BUF_SIZE ≤ c.tx_buf.length) (hfr : c.freed = 0) :
    (∀ d : List Nat, c.w_local_read = true → BUF_SIZE - 512 < d.length →
      d.length ≤ BUF_SIZE → parses x (tcp_recv d c) →
      ∃ s, run x [event_t.local_readable (some d)] (w, c) = some s ∧
        s.2.overrun = true ∧ s.2.tx_bytes = 512 + (d.length : Int) ∧
        (BUF_SIZE : Int) < s.2.tx_bytes) ∧
    (∀ (fd : Int) (dgram : List Nat), BUF_SIZE - 514 < dgram.length →
      dgram.length ≤ BUF_SIZE - 2 → parses x (udp_recv fd (some dgram) c) →
      ∃ s, udp_query x fd (some dgram) w c [] = some s ∧
        s.2.overrun = true ∧ s.2.tx_bytes = 512 + (dgram.length : Int) + 2 ∧
        (BUF_SIZE : Int) < s.2.tx_bytes) := by
  have hB : BUF_SIZE = 8192 := rfl
  constructor
  · intro d hw hd1 hd2 hp
    have hd : d ≠ [] := by
      intro h
      rw [h] at hd1
      simp [BUF_SIZE] at hd1
    have ht : d.take BUF_SIZE = d := List.take_of_length_le hd2
    have hb : (tcp_recv d c).rx_buf = memcpy c.rx_buf 0 d := by
      simp only [tcp_recv, ht]
    have hbytes : (tcp_recv d c).rx_bytes = (d.length : Int) := by
      simp only [tcp_recv, ht]
    have hlen : (tcp_recv d c).rx_buf.length = 8192 := by
      rw [hb, length_memcpy _ _ _ (by omega)]
      omega
    obtain ⟨r, hr⟩ := connect_server_total x (tries_left (tcp_recv d c)) w (tcp_recv d c) hn
      (by simp [tries_left, tcp_recv])
    obtain ⟨w1, c1, b1, b2, -, -, -, -, b7, b8, -, -⟩ :=
      connect_server_built x _ w (tcp_recv d c) r hn htx hp hr
    have hov := build_request_overrun x w1 c1 (by
      rw [b1, b2, hbytes, length_slice_of_le _ _ _ (by rw [hlen]; omega)]
      omega)
    refine ⟨r, ?_, by rw [b7]; exact hov, by rw [b8, hbytes], by rw [b8, hbytes]; omega⟩
    rw [run, dispatch_local_readable x d w c hw hfr hd, hr]
    rfl
  · intro fd dgram hd1 hd2 hp
    obtain ⟨u1, u2, -⟩ := udp_recv_payload fd dgram c hd2 hrx
    obtain ⟨r, hr⟩ := connect_server_total x (tries_left (udp_recv fd (some dgram) c)) w
      (udp_recv fd (some dgram) c) hn (by simp [tries_left])
    obtain ⟨w1, c1, b1, b2, -, -, -, -, b7, b8, -, -⟩ :=
      connect_server_built x _ w (udp_recv fd (some dgram) c) r hn
        (by rw [udp_recv_tx_buf]; exact htx) hp hr
    have hov := build_request_overrun x w1 c1 (by
      rw [b1, b2, u1, length_slice_of_le _ _ _ (by rw [u2]; omega)]
      omega)
    refine ⟨r, ?_, by rw [b7]; exact hov, by rw [b8, u1]; omega, by rw [b8, u1]; omega⟩
    rw [udp_query_eq, hr]
    rfl

theorem tx_buf_overrun_witness :
    1 ≤ world_two.health.length ∧ conn_tcp.rx_buf.length = BUF_SIZE ∧
    BUF_SIZE ≤ conn_tcp.tx_buf.length ∧ conn_tcp.freed = 0 ∧
    conn_tcp.w_local_read = true ∧
    BUF_SIZE - 512 < (List.replicate 8192 0).length ∧
    (List.replicate 8192 0).length ≤ BUF_SIZE ∧
    ∃ s, run env_up [event_t.local_readable (some (List.replicate 8192 0))]
        (world_two, conn_tcp) = some s ∧
      s.2.overrun = true ∧ s.2.tx_bytes = 512 + ((List.replicate 8192 0).length : Int) ∧
      (BUF_SIZE : Int) < s.2.tx_bytes :=
  have hrx : conn_tcp.rx_buf.length = BUF_SIZE := List.length_replicate _ _
  have htx : BUF_SIZE ≤ conn_tcp.tx_buf.length :=
    Nat.le_of_eq (List.length_replicate _ _).symm
  have hl : (List.replicate 8192 0 : List Nat).length = 8192 := List.length_replicate _ _
  have hp : parses env_up (tcp_recv (List.replicate 8192 0) conn_tcp) := by
    have ht : (List.replicate 8192 0 : List Nat).take BUF_SIZE = List.replicate 8192 0 :=
      List.take_of_length_le (by rw [hl]; decide)
    simp only [parses, tcp_recv, ht, hl, env_up, env_down]
    decide
  ⟨by decide, hrx, htx, rfl, rfl, by rw [hl]; decide, by rw [hl]; decide,
    (tx_buf_overrun env_up world_two conn_tcp (by decide) hrx htx rfl).1
      (List.replicate 8192 0) rfl (by rw [hl]; decide) (by rw [hl]; decide) hp⟩

end Iodns
